import Mathlib

/-!
Verification of the calendar-mcp core algorithms: a shallow embedding of the
availability engine (`free-busy-service.ts`), the conflict detector
(`ConflictService`), the cross-provider synchronizer (`SyncService`) and the
interval utilities (`utils/datetime.ts`).

Conventions of the embedding:
* Instants are modelled as `ℤ` epoch milliseconds.  Luxon `DateTime`
  comparison, `diff` and `plus` on concrete instants are exactly integer
  arithmetic on the epoch value.
* Scores are modelled as `ℚ` (JavaScript numbers used by the matcher stay in
  small rationals; no rounding is exercised on the score path).
* `Array.prototype.sort` with comparator `(a, b) => key(a) - key(b)` is a
  stable sort by `key`; it is embedded as a stable insertion sort, which is
  extensionally the unique stable sort by that key.
* Display-only strings (human-readable `reason`, `details`) and fields never
  read by any control flow (`eventSubject`, `calendarName`) are omitted.
-/

namespace CalendarMCP

/-- `showAs` axis of a calendar event (types/calendar.ts). -/
inductive ShowAs where
  | free
  | busy
  | tentative
  | oof
  | workingElsewhere
deriving DecidableEq, Repr

/-- Busy-slot status (types/free-busy.ts `BusyStatus`). -/
inductive BusyStatus where
  | busy
  | tentative
  | oof
deriving DecidableEq, Repr

/-- The unified event record (types/calendar.ts `CalendarEvent`), restricted to
the fields read by the conflict detector and the synchronizer.  `startTime` and
`endTime` are the epoch milliseconds of `start.dateTime` / `end.dateTime`. -/
structure Event where
  id : String
  provider : String
  calendarId : String
  subject : String
  startTime : ℤ
  endTime : ℤ
  location : Option String
  isAllDay : Bool
  iCalUId : Option String
  showAs : ShowAs
deriving DecidableEq, Repr

/-- A busy slot (types/free-busy.ts `BusySlot`); `eventSubject`/`eventId`
annotations are never read by the merge logic and are omitted. -/
structure BusySlot where
  startTime : ℤ
  endTime : ℤ
  status : BusyStatus
deriving DecidableEq, Repr

/-- A free slot (types/free-busy.ts `FreeSlot`). -/
structure FreeSlot where
  startTime : ℤ
  endTime : ℤ
  durationMinutes : ℤ
deriving DecidableEq, Repr

/-! ### Stable sorting

`Array.prototype.sort` with a numeric comparator is stable (ECMA-262);
a stable sort by a key is extensionally unique, so it is embedded as a stable
insertion sort: an element is inserted before the first element that is
strictly greater, hence after all elements with an equal key. -/

/-- Insert `x` into `l`, before the first element `y` with `¬ le x y`
false, i.e. keeping ties in their original order. -/
def stableInsert (le : α → α → Prop) [DecidableRel le] (x : α) : List α → List α
  | [] => [x]
  | y :: ys => if le x y then x :: y :: ys else y :: stableInsert le x ys

/-- Stable sort by the relation `le` (total preorder). -/
def stableSortBy (le : α → α → Prop) [DecidableRel le] : List α → List α
  | [] => []
  | x :: xs => stableInsert le x (stableSortBy le xs)

/-! ### FreeBusyService.mergeBusySlots (free-busy-service.ts lines 134-169) -/

/-- The status update applied when an incoming slot `next` is coalesced into
the accumulator `current`:
`if (next.status === 'busy' || current.status !== 'busy') current.status = next.status`. -/
def statusMerge (current next : BusyStatus) : BusyStatus :=
  if next = .busy ∨ current ≠ .busy then next else current

/-- The merge loop of `mergeBusySlots`: `current` is the accumulator slot,
the list holds the remaining sorted slots. -/
def mergeBusyLoop (current : BusySlot) : List BusySlot → List BusySlot
  | [] => [current]
  | next :: rest =>
    if next.startTime ≤ current.endTime then
      mergeBusyLoop
        { startTime := current.startTime
          endTime := if next.endTime > current.endTime then next.endTime else current.endTime
          status := statusMerge current.status next.status } rest
    else
      current :: mergeBusyLoop next rest

/-- `FreeBusyService.mergeBusySlots`: sort by start time, then coalesce any
slot that starts at or before the accumulator's end. -/
def mergeBusySlots (slots : List BusySlot) : List BusySlot :=
  match stableSortBy (fun a b => a.startTime ≤ b.startTime) slots with
  | [] => []
  | first :: rest => mergeBusyLoop first rest

/-! ### FreeBusyService.findSuggestedSlots (free-busy-service.ts lines 244-270) -/

/-- The suggestion built from a qualifying free slot: its start, truncated to
exactly `minDur` minutes (the source adds `minDur` minutes to the parsed
start, i.e. `minDur * 60000` ms). -/
def mkSuggestion (slot : FreeSlot) (minDur : ℤ) : FreeSlot :=
  { startTime := slot.startTime
    endTime := slot.startTime + minDur * 60000
    durationMinutes := minDur }

/-- Loop of `findSuggestedSlots`; `count` is the number of suggestions already
collected.  The source pushes a suggestion and then breaks once the length
reaches `maxS`. -/
def suggestLoop (minDur : ℤ) (maxS : ℕ) : List FreeSlot → ℕ → List FreeSlot
  | [], _ => []
  | slot :: rest, count =>
    if slot.durationMinutes ≥ minDur then
      if count + 1 ≥ maxS then [mkSuggestion slot minDur]
      else mkSuggestion slot minDur :: suggestLoop minDur maxS rest (count + 1)
    else
      suggestLoop minDur maxS rest count

/-- `FreeBusyService.findSuggestedSlots` with its default `maxSuggestions = 5`. -/
def findSuggestedSlots (freeSlots : List FreeSlot) (minDur : ℤ) : List FreeSlot :=
  suggestLoop minDur 5 freeSlots 0

/-! ### Interval utilities (utils/datetime.ts)

A Luxon `Interval` is modelled as a pair `(start, end) : ℤ × ℤ`; it `isValid`
iff `end ≥ start` (zero-length intervals are valid).  `overlaps` is strict on
both ends and `abutsStart` is end-equals-start, as in Luxon. -/

/-- Luxon `Interval.overlaps` (strict half-open overlap). -/
def ivOverlaps (a b : ℤ × ℤ) : Prop := a.1 < b.2 ∧ b.1 < a.2

instance : DecidableRel ivOverlaps := fun _ _ => instDecidableAnd

/-- Luxon `Interval.abutsStart`: `a` ends exactly where `b` starts. -/
def ivAbutsStart (a b : ℤ × ℤ) : Prop := a.2 = b.1

instance : DecidableRel ivAbutsStart := fun _ _ => decEq _ _

/-- Loop of `mergeIntervals`: coalesce `next` into `current` when they overlap
or abut, keeping the later of the two ends. -/
def mergeIntLoop (current : ℤ × ℤ) : List (ℤ × ℤ) → List (ℤ × ℤ)
  | [] => [current]
  | next :: rest =>
    if ivOverlaps current next ∨ ivAbutsStart current next then
      mergeIntLoop (current.1, if current.2 > next.2 then current.2 else next.2) rest
    else
      current :: mergeIntLoop next rest

/-- `mergeIntervals` (datetime.ts lines 240-270): drop invalid intervals,
sort by start, coalesce overlapping-or-abutting runs. -/
def mergeIntervals (intervals : List (ℤ × ℤ)) : List (ℤ × ℤ) :=
  match stableSortBy (fun a b => a.1 ≤ b.1) (intervals.filter fun i => i.1 ≤ i.2) with
  | [] => []
  | first :: rest => mergeIntLoop first rest

/-- Loop of `findGaps`: walk the merged intervals with a `cursor`, skipping
intervals that end at or before the range start, stopping at the first
interval that starts at or after the range end, clamping each remaining
interval to the range and emitting the uncovered stretch before it. -/
def gapsLoop (rangeStart rangeEnd : ℤ) : List (ℤ × ℤ) → ℤ → List (ℤ × ℤ)
  | [], cursor => if cursor < rangeEnd then [(cursor, rangeEnd)] else []
  | iv :: rest, cursor =>
    if iv.2 ≤ rangeStart then gapsLoop rangeStart rangeEnd rest cursor
    else if iv.1 ≥ rangeEnd then (if cursor < rangeEnd then [(cursor, rangeEnd)] else [])
    else
      let effStart := if iv.1 > rangeStart then iv.1 else rangeStart
      let effEnd := if iv.2 < rangeEnd then iv.2 else rangeEnd
      if cursor < effStart then (cursor, effStart) :: gapsLoop rangeStart rangeEnd rest effEnd
      else gapsLoop rangeStart rangeEnd rest effEnd

/-- `findGaps` (datetime.ts lines 275-315). -/
def findGaps (intervals : List (ℤ × ℤ)) (rangeStart rangeEnd : ℤ) : List (ℤ × ℤ) :=
  gapsLoop rangeStart rangeEnd (mergeIntervals intervals) rangeStart

/-- `rangesOverlap` (datetime.ts lines 211-223): `s1 < e2 && e1 > s2`. -/
def rangesOverlap (s1 e1 s2 e2 : ℤ) : Prop := s1 < e2 ∧ e1 > s2

instance (s1 e1 s2 e2 : ℤ) : Decidable (rangesOverlap s1 e1 s2 e2) := instDecidableAnd

/-! ### SyncService.fuzzyMatch (sync service, lines 398-437)

The source tabulates the standard Levenshtein dynamic program:
`matrix[i][j] = min(matrix[i-1][j] + 1, matrix[i][j-1] + 1, matrix[i-1][j-1] + cost)`
with border `matrix[i][0] = i`, `matrix[0][j] = j`.  `lev` is the recurrence
that this matrix tabulates. -/

/-- Levenshtein distance (the recurrence computed by the source's DP matrix). -/
def lev : List Char → List Char → ℕ
  | [], ys => ys.length
  | x :: xs, [] => (x :: xs).length
  | x :: xs, y :: ys =>
    min (lev xs (y :: ys) + 1)
      (min (lev (x :: xs) ys + 1) (lev xs ys + if x = y then 0 else 1))
termination_by xs ys => xs.length + ys.length

/-- JavaScript `String.prototype.trim` on a character list. -/
def trimChars (l : List Char) : List Char :=
  ((l.dropWhile Char.isWhitespace).reverse.dropWhile Char.isWhitespace).reverse

/-- `str.toLowerCase().trim()` as used by `fuzzyMatch`. -/
def normalizeStr (s : String) : List Char :=
  trimChars (s.toList.map Char.toLower)

/-- `SyncService.fuzzyMatch`: 1 on two empty strings, 0 if exactly one is
empty, 1 on equal normalized strings, otherwise `1 - distance / maxLength`
on the normalized strings (0 if a normalized string is empty). -/
def fuzzyMatch (str1 str2 : String) : ℚ :=
  if str1 = "" ∧ str2 = "" then 1
  else if str1 = "" ∨ str2 = "" then 0
  else
    let s1 := normalizeStr str1
    let s2 := normalizeStr str2
    if s1 = s2 then 1
    else if s1.length = 0 then 0
    else if s2.length = 0 then 0
    else 1 - (lev s1 s2 : ℚ) / (max s1.length s2.length : ℚ)

/-! ### SyncService.calculateMatch (sync service, lines 291-393) -/

/-- Match confidence levels. -/
inductive MatchConfidence where
  | high
  | medium
  | low
deriving DecidableEq, Repr

/-- Event match result.  The `matchFactors` explanation list (factor name,
weight, matched flag, human-readable details) is presentation-only metadata:
no control flow reads it, so it is omitted from the embedding. -/
structure EventMatch where
  sourceEvent : Event
  targetEvent : Event
  confidence : MatchConfidence
  score : ℚ
deriving DecidableEq, Repr

/-- JavaScript truthiness of an optional string (`undefined` and `''` are
falsy). -/
def strTruthy : Option String → Bool
  | none => false
  | some s => s ≠ ""

/-- `SyncService.calculateMatch`: weighted factor sum over subject (30),
start-time proximity (25), end-time proximity (20), location (10, only when
either event has a truthy location), all-day equality (10) and iCalUID
equality (5, only when both events carry a truthy UID); the score divides the
accumulated matched weight by the accumulated total weight. -/
def calculateMatch (source target : Event) : EventMatch :=
  let subjectScore := fuzzyMatch source.subject target.subject
  let startDiff := |source.startTime - target.startTime|
  let startScore : ℚ := if startDiff ≤ 60000 then 1 else if startDiff ≤ 300000 then 1/2 else 0
  let endDiff := |source.endTime - target.endTime|
  let endScore : ℚ := if endDiff ≤ 60000 then 1 else if endDiff ≤ 300000 then 1/2 else 0
  let hasLocation := strTruthy source.location ∨ strTruthy target.location
  let locationScore := fuzzyMatch (source.location.getD "") (target.location.getD "")
  let allDayScore : ℚ := if source.isAllDay = target.isAllDay then 1 else 0
  let hasICal := strTruthy source.iCalUId ∧ strTruthy target.iCalUId
  let icalScore : ℚ := if source.iCalUId = target.iCalUId then 1 else 0
  let totalWeight : ℚ :=
    30 + 25 + 20 + (if hasLocation then 10 else 0) + 10 + (if hasICal then 5 else 0)
  let matchedWeight : ℚ :=
    30 * subjectScore + 25 * startScore + 20 * endScore
      + (if hasLocation then 10 * locationScore else 0)
      + 10 * allDayScore
      + (if hasICal then 5 * icalScore else 0)
  let score := if totalWeight > 0 then matchedWeight / totalWeight else 0
  { sourceEvent := source
    targetEvent := target
    confidence := if score ≥ 8/10 then .high else if score ≥ 5/10 then .medium else .low
    score := score }

/-! ### CalendarService.listAllEvents (calendar-service.ts lines 97-164)

Each connected provider's `listEvents` call is issued through
`Promise.allSettled`, so a provider outcome is either a fulfilled event list
or a rejection; the provider error record is modelled by its message string.
The claims never pass `maxResults`, `listAllEvents` is modelled without the
final `slice`. -/

/-- Result of `listAllEvents` (`ListEventsResult`); `partSuccess` models the
source's partial-success flag `errors.length > 0 && events.length > 0`. -/
structure ListEventsResult where
  events : List Event
  errors : List String
  partSuccess : Bool
deriving DecidableEq, Repr

/-- Whether a settled provider outcome is fulfilled. -/
def isOkB : Except String (List Event) → Bool
  | .ok _ => true
  | .error _ => false

/-- `CalendarService.listAllEvents` over the settled provider outcomes:
concatenate fulfilled providers' events, sort them by start time, collect one
error record per rejected provider. -/
def listAllEvents (results : List (Except String (List Event))) : ListEventsResult :=
  let events := (results.filterMap fun r => match r with | .ok es => some es | .error _ => none).flatten
  let errors := results.filterMap fun r => match r with | .ok _ => none | .error m => some m
  let sorted := stableSortBy (fun a b : Event => a.startTime ≤ b.startTime) events
  { events := sorted
    errors := errors
    partSuccess := decide (errors ≠ [] ∧ sorted ≠ []) }

/-! ### ConflictService (free-busy-service.ts second module, lines 314-485) -/

/-- Proposed-slot parameters (`CheckConflictsParams`), times already parsed. -/
structure ConflictParams where
  startTime : ℤ
  endTime : ℤ
  excludeEventId : Option String
  excludeProvider : Option String
deriving DecidableEq, Repr

/-- The filter of `checkConflicts` (lines 341-363): drop the excluded event,
drop `showAs === 'free'` events, keep events overlapping the proposal. -/
def conflictsOf (params : ConflictParams) (events : List Event) : List Event :=
  events.filter fun e =>
    ¬(params.excludeEventId = some e.id ∧
        (params.excludeProvider = none ∨ params.excludeProvider = some e.provider)) ∧
      e.showAs ≠ .free ∧
      rangesOverlap params.startTime params.endTime e.startTime e.endTime

/-- The busy list of `findAlternativeSlot` (lines 407-413): non-free events'
intervals sorted by start. -/
def busyOf (events : List Event) : List (ℤ × ℤ) :=
  stableSortBy (fun a b : ℤ × ℤ => a.1 ≤ b.1)
    ((events.filter fun e => e.showAs ≠ .free).map fun e => (e.startTime, e.endTime))

/-- First busy interval conflicting with the candidate window
`[cursor, slotEnd)` — the loop at lines 423-430 breaks at the first one. -/
def firstOverlap (busy : List (ℤ × ℤ)) (cursor slotEnd : ℤ) : Option (ℤ × ℤ) :=
  busy.find? fun b => cursor < b.2 ∧ slotEnd > b.1

/-- The non-progress guard (lines 446-449): a cursor that failed to advance
past the original proposed start is forced to the proposed end. -/
def nextCursor (pStart pEnd c : ℤ) : ℤ :=
  if c ≤ pStart then pEnd else c

/-- The 7-day search horizon: `proposedStart.plus({ days: 7 })`. -/
def searchHorizon (pStart : ℤ) : ℤ :=
  pStart + 7 * 86400000

/-- The `while (cursor < searchEnd)` loop of `findAlternativeSlot`, written
with explicit fuel.  Each iteration either returns or jumps the cursor to the
end of a busy interval it has not yet passed, so the loop runs at most
`busy.length + 1` iterations; the C7 theorem proves that any fuel above the
number of busy intervals still ahead of the cursor yields the same result, so
the `0` branch is never reached from `findAlternativeSlot`. -/
def faGo (pStart pEnd searchEnd : ℤ) (busy : List (ℤ × ℤ)) : ℕ → ℤ → Option (ℤ × ℤ)
  | 0, _ => none
  | fuel + 1, cursor =>
    if cursor < searchEnd then
      let slotEnd := cursor + (pEnd - pStart)
      match firstOverlap busy cursor slotEnd with
      | none => some (cursor, slotEnd)
      | some b => faGo pStart pEnd searchEnd busy fuel (nextCursor pStart pEnd b.2)
    else none

/-- Number of busy intervals the cursor has not yet moved past; the decreasing
measure of the `findAlternativeSlot` loop. -/
def faMeasure (busy : List (ℤ × ℤ)) (cursor : ℤ) : ℕ :=
  (busy.filter fun b => cursor < b.2).length

/-- `ConflictService.findAlternativeSlot` (lines 396-453).  The human-readable
`reason` string of the returned suggestion is presentation-only and omitted;
the slot is returned as the `(start, end)` pair. -/
def findAlternativeSlot (pStart pEnd : ℤ) (events : List Event) : Option (ℤ × ℤ) :=
  faGo pStart pEnd (searchHorizon pStart) (busyOf events) ((busyOf events).length + 1) pStart

/-- Conflict check result (`ConflictCheckResult`).  The source projects each
conflicting event to a record of its id/provider/calendarId/subject/times/
showAs; the embedding keeps the event values themselves (one per conflict,
fields copied verbatim). -/
structure ConflictCheckResult where
  hasConflict : Bool
  conflicts : List Event
  suggestion : Option (ℤ × ℤ)
deriving DecidableEq, Repr

/-- `ConflictService.checkConflicts` given the queried events: filter
conflicts, and search an alternative slot over all queried events when any
conflict exists. -/
def checkConflictsPure (params : ConflictParams) (events : List Event) : ConflictCheckResult :=
  let conflicts := conflictsOf params events
  { hasConflict := decide (0 < conflicts.length)
    conflicts := conflicts
    suggestion :=
      if 0 < conflicts.length then findAlternativeSlot params.startTime params.endTime events
      else none }

/-- The whole `checkConflicts` operation over the settled provider outcomes:
`listAllEvents` never rejects on a provider failure (`Promise.allSettled`),
`checkConflicts` destructures only `events` from its result, and the function
body contains no other throw — the operation always fulfills. -/
def checkConflictsOp (params : ConflictParams) (results : List (Except String (List Event))) :
    Except String ConflictCheckResult :=
  .ok (checkConflictsPure params (listAllEvents results).events)

/-! ### SyncService.compareCalendars (sync service, lines 129-204) -/

/-- `!bestMatch || matchResult.score > bestMatch.score`. -/
def beats (m : EventMatch) : Option EventMatch → Prop
  | none => True
  | some b => m.score > b.score

instance (m : EventMatch) : ∀ o, Decidable (beats m o)
  | none => .isTrue trivial
  | some _ => Rat.instDecidableLt _ _

/-- The inner loop of `compareCalendars`: scan the target events, skip the
already-claimed ones, and keep the first candidate attaining the running
maximum among scores `≥ 0.5` (strict improvement only). -/
def innerBest (src : Event) (claimed : List String) :
    List Event → Option EventMatch → Option EventMatch
  | [], best => best
  | t :: ts, best =>
    if claimed.contains t.id then innerBest src claimed ts best
    else
      let m := calculateMatch src t
      if m.score ≥ 5/10 ∧ beats m best then innerBest src claimed ts (some m)
      else innerBest src claimed ts best

/-- The outer loop of `compareCalendars`: walk the source events in order,
claim the chosen target id, and accumulate matches plus the two id sets. -/
def compareLoop (tgts : List Event) :
    List Event → List String → List String → List EventMatch × List String × List String
  | [], srcIds, tgtIds => ([], srcIds, tgtIds)
  | s :: ss, srcIds, tgtIds =>
    match innerBest s tgtIds tgts none with
    | none => compareLoop tgts ss srcIds tgtIds
    | some m =>
      let r := compareLoop tgts ss (s.id :: srcIds) (m.targetEvent.id :: tgtIds)
      (m :: r.1, r.2)

/-- Calendar comparison result (`CalendarComparison`), restricted to the
fields derived from the matching loop; the echo-back of the request's
provider/calendar/time-range parameters is omitted. -/
structure CalendarComparison where
  matchList : List EventMatch
  sourceOnly : List Event
  targetOnly : List Event
  totalSourceEvents : ℕ
  totalTargetEvents : ℕ
  matchedCount : ℕ
  sourceOnlyCount : ℕ
  targetOnlyCount : ℕ
deriving DecidableEq, Repr

/-- `SyncService.compareCalendars` on the two fetched event lists. -/
def compareCalendarsCore (srcs tgts : List Event) : CalendarComparison :=
  let r := compareLoop tgts srcs [] []
  let sourceOnly := srcs.filter fun e => !(r.2.1.contains e.id)
  let targetOnly := tgts.filter fun e => !(r.2.2.contains e.id)
  { matchList := r.1
    sourceOnly := sourceOnly
    targetOnly := targetOnly
    totalSourceEvents := srcs.length
    totalTargetEvents := tgts.length
    matchedCount := r.1.length
    sourceOnlyCount := sourceOnly.length
    targetOnlyCount := targetOnly.length }

/-- The whole `compareCalendars` operation over settled provider outcomes for
the source and target fetch: both fetches go through `listAllEvents`, whose
per-provider errors are discarded, and the body contains no other throw. -/
def compareCalendarsOp (srcResults tgtResults : List (Except String (List Event))) :
    Except String CalendarComparison :=
  .ok (compareCalendarsCore (listAllEvents srcResults).events (listAllEvents tgtResults).events)

/-! #### Specification-level greedy matching

Modelled from the spec: "for each source event in original order, pick the
best-scoring unmatched target event with score ≥ 0.5 (first-come-first-served
across source events)".  Ties, unspecified by the spec, go to the earliest
target, matching a deterministic reading. -/

/-- First element attaining the maximal score of the list. -/
def firstMaxByScore : List EventMatch → Option EventMatch
  | [] => none
  | m :: ms =>
    match firstMaxByScore ms with
    | none => some m
    | some y => if y.score > m.score then some y else some m

/-- Modelled from the spec: the best-scoring still-unmatched target with
score ≥ 0.5 for one source event. -/
def bestUnmatchedSpec (src : Event) (tgts : List Event) (claimed : List String) :
    Option EventMatch :=
  firstMaxByScore
    (((tgts.filter fun t => !(claimed.contains t.id)).map (calculateMatch src)).filter
      fun m => m.score ≥ 5/10)

/-- Modelled from the spec: greedy first-come-first-served matching over the
source events in their original order. -/
def greedySpecLoop (tgts : List Event) : List Event → List String → List EventMatch
  | [], _ => []
  | s :: ss, claimed =>
    match bestUnmatchedSpec s tgts claimed with
    | none => greedySpecLoop tgts ss claimed
    | some m => m :: greedySpecLoop tgts ss (m.targetEvent.id :: claimed)

/-! ### SyncService.findMatchingEvents (sync service, lines 78-124) -/

/-- The confidence floor (`high → 0.8`, `medium → 0.5`, `low → 0.3`). -/
def minScoreOf : MatchConfidence → ℚ
  | .high => 8/10
  | .medium => 5/10
  | .low => 3/10

/-- `SyncService.findMatchingEvents` on the two fetched event lists: score the
cross product, keep scores at or above the floor, sort descending by score. -/
def findMatchingEventsCore (srcs tgts : List Event) (minConfidence : MatchConfidence) :
    List EventMatch :=
  stableSortBy (fun a b : EventMatch => b.score ≤ a.score)
    ((srcs.map fun s => (tgts.map (calculateMatch s)).filter
        fun m => m.score ≥ minScoreOf minConfidence).flatten)

/-- The whole `findMatchingEvents` operation over settled provider outcomes:
like `compareCalendarsOp`, per-provider errors are discarded. -/
def findMatchingEventsOp (minConfidence : MatchConfidence)
    (srcResults tgtResults : List (Except String (List Event))) :
    Except String (List EventMatch) :=
  .ok (findMatchingEventsCore (listAllEvents srcResults).events
    (listAllEvents tgtResults).events minConfidence)

/-! ### FreeBusyService.getAggregatedFreeBusy (free-busy-service.ts lines 39-129) -/

/-- Per-provider free/busy payload (`CalendarFreeBusy`), restricted to the
fields the aggregation reads. -/
structure CalFreeBusy where
  calendarId : String
  busy : List BusySlot
deriving DecidableEq, Repr

/-- Whether a settled free/busy outcome is fulfilled. -/
def isOkFB : Except String CalFreeBusy → Bool
  | .ok _ => true
  | .error _ => false

/-- `computeFreeSlots` (lines 174-192): gaps between the busy slots within
the range, with the duration rounded to whole minutes (`Math.round`, i.e.
`⌊x + 1/2⌋`, which is Mathlib's `round`). -/
def computeFreeSlots (busySlots : List BusySlot) (rangeStart rangeEnd : ℤ) : List FreeSlot :=
  (findGaps (busySlots.map fun s => (s.startTime, s.endTime)) rangeStart rangeEnd).map fun g =>
    { startTime := g.1
      endTime := g.2
      durationMinutes := round ((g.2 - g.1 : ℚ) / 60000) }

/-- Free/busy request parameters (`FreeBusyParams`), times already parsed. -/
structure FreeBusyParams where
  rangeStart : ℤ
  rangeEnd : ℤ
  slotDuration : Option ℤ
  workingHoursOnly : Bool
deriving DecidableEq, Repr

/-- Aggregated free/busy response (`FreeBusyResponse`).  The `calendars`
record keyed by calendar id is kept as the list of fulfilled payloads; the
optional `errors` array is `none` exactly when the source leaves the field
unset. -/
structure FreeBusyResponseM where
  calendars : List CalFreeBusy
  unifiedBusy : List BusySlot
  unifiedFree : List FreeSlot
  suggestedSlots : Option (List FreeSlot)
  errors : Option (List String)
deriving DecidableEq, Repr

/-- `FreeBusyService.getAggregatedFreeBusy` over the settled per-provider
outcomes.  `whFilter` stands for `filterToWorkingHours`, whose day-by-day
civil-time iteration (zone-dependent `startOf('day')`) lies outside the
epoch-millisecond embedding; no claim depends on its internals, so it is a
parameter. -/
def getAggregatedFreeBusy (whFilter : List FreeSlot → List FreeSlot)
    (params : FreeBusyParams) (results : List (Except String CalFreeBusy)) :
    FreeBusyResponseM :=
  if results.isEmpty then
    { calendars := [], unifiedBusy := [], unifiedFree := [],
      suggestedSlots := none, errors := none }
  else
    let cals := results.filterMap fun r => match r with | .ok c => some c | .error _ => none
    let errors := results.filterMap fun r => match r with | .ok _ => none | .error m => some m
    let allBusy := (cals.map (fun c => c.busy)).flatten
    let merged := mergeBusySlots allBusy
    let free0 := computeFreeSlots merged params.rangeStart params.rangeEnd
    let free := if params.workingHoursOnly then whFilter free0 else free0
    let suggested :=
      match params.slotDuration with
      | some d => if d > 0 then some (findSuggestedSlots free d) else none
      | none => none
    { calendars := cals
      unifiedBusy := merged
      unifiedFree := free
      suggestedSlots := suggested
      errors := if errors ≠ [] then some errors else none }

/-- The whole `getAggregatedFreeBusy` operation: every provider rejection is
captured by `Promise.allSettled` and turned into an error record, so the
operation always fulfills. -/
def getAggregatedFreeBusyOp (whFilter : List FreeSlot → List FreeSlot)
    (params : FreeBusyParams) (results : List (Except String CalFreeBusy)) :
    Except String FreeBusyResponseM :=
  .ok (getAggregatedFreeBusy whFilter params results)

/-! ## Helper lemmas -/

lemma statusMerge_eq (s t : BusyStatus) :
    statusMerge s t = if s = .busy ∨ t = .busy then .busy else t := by
  cases s <;> cases t <;> rfl

lemma suggestLoop_eq (d : ℤ) (maxS : ℕ) :
    ∀ (slots : List FreeSlot) (count : ℕ), count < maxS →
      suggestLoop d maxS slots count =
        ((slots.filter fun s => s.durationMinutes ≥ d).take (maxS - count)).map
          (fun s => mkSuggestion s d) := by
  intro slots
  induction slots with
  | nil => intro count _; simp [suggestLoop]
  | cons slot rest ih =>
    intro count hcount
    by_cases hq : slot.durationMinutes ≥ d
    · by_cases hstop : count + 1 ≥ maxS
      · have hm : maxS - count = 1 := by omega
        simp [suggestLoop, hq, hstop, hm]
      · have hm : maxS - count = (maxS - (count + 1)) + 1 := by omega
        simp [suggestLoop, hq, hstop, hm, ih (count + 1) (by omega)]
    · simp [suggestLoop, hq, ih count hcount]

/-! ## C5 -/

/-- C5: whenever `mergeBusySlots` coalesces two overlapping-or-touching slots,
the merged slot's status is `busy` if either slot's status is `busy`,
otherwise the incoming (later-sorted) slot's status; witnessed both on the
status-update step `statusMerge` and on `mergeBusySlots` coalescing a sorted
overlapping pair. -/
theorem C5_mergeBusySlots_status :
    (∀ s t : BusyStatus, statusMerge s t = if s = .busy ∨ t = .busy then .busy else t) ∧
    (∀ a b : BusySlot, a.startTime ≤ b.startTime → b.startTime ≤ a.endTime →
      mergeBusySlots [a, b] =
        [{ startTime := a.startTime
           endTime := if b.endTime > a.endTime then b.endTime else a.endTime
           status := if a.status = .busy ∨ b.status = .busy then .busy else b.status }]) := by
  refine ⟨statusMerge_eq, ?_⟩
  intro a b h1 h2
  unfold mergeBusySlots
  simp only [stableSortBy, stableInsert, if_pos h1]
  simp only [mergeBusyLoop, if_pos h2, statusMerge_eq]

/-- C5 witness: a tentative slot coalescing with a later busy slot comes out
busy, at concrete inputs. -/
theorem C5_mergeBusySlots_status_witness :
    (⟨0, 10, .tentative⟩ : BusySlot).startTime ≤ (⟨5, 20, .busy⟩ : BusySlot).startTime ∧
    (⟨5, 20, .busy⟩ : BusySlot).startTime ≤ (⟨0, 10, .tentative⟩ : BusySlot).endTime ∧
    mergeBusySlots [⟨0, 10, .tentative⟩, ⟨5, 20, .busy⟩] =
      [{ startTime := 0
         endTime := if (20 : ℤ) > 10 then 20 else 10
         status := if BusyStatus.tentative = .busy ∨ BusyStatus.busy = .busy then .busy
           else .busy }] :=
  ⟨by decide, by decide,
    C5_mergeBusySlots_status.2 ⟨0, 10, .tentative⟩ ⟨5, 20, .busy⟩ (by decide) (by decide)⟩

/-! ## C9 -/

/-- C9: `findSuggestedSlots` equals filter-qualifying-slots, take 5, truncate
each to the requested duration; hence at most 5 suggestions, each starting at
the start of a free slot whose recorded duration is at least the requested
duration. -/
theorem C9_findSuggestedSlots (freeSlots : List FreeSlot) (d : ℤ) (_hd : 0 < d) :
    findSuggestedSlots freeSlots d =
      ((freeSlots.filter fun s => s.durationMinutes ≥ d).take 5).map
        (fun s => mkSuggestion s d) ∧
    (findSuggestedSlots freeSlots d).length ≤ 5 ∧
    ∀ s ∈ findSuggestedSlots freeSlots d,
      ∃ slot ∈ freeSlots, slot.durationMinutes ≥ d ∧ s = mkSuggestion slot d := by
  have heq := suggestLoop_eq d 5 freeSlots 0 (by omega)
  refine ⟨heq, ?_, ?_⟩
  · rw [findSuggestedSlots, heq]
    simp only [List.length_map, List.length_take]
    omega
  · intro s hs
    rw [findSuggestedSlots, heq] at hs
    rcases List.mem_map.mp hs with ⟨slot, hslot, hmk⟩
    have hmem := List.mem_of_mem_take hslot
    rcases List.mem_filter.mp hmem with ⟨hin, hp⟩
    exact ⟨slot, hin, by simpa using hp, hmk.symm⟩

/-- C9 witness: seven qualifying free slots yield exactly five suggestions at
concrete inputs. -/
theorem C9_findSuggestedSlots_witness :
    (0 : ℤ) < 30 ∧
    (findSuggestedSlots
        [⟨0, 3600000, 60⟩, ⟨4000000, 5200000, 20⟩, ⟨6000000, 9600000, 60⟩,
          ⟨10000000, 13600000, 60⟩, ⟨14000000, 17600000, 60⟩, ⟨18000000, 21600000, 60⟩,
          ⟨22000000, 25600000, 60⟩] 30 =
      ((List.filter (fun s => s.durationMinutes ≥ 30)
          [⟨0, 3600000, 60⟩, ⟨4000000, 5200000, 20⟩, ⟨6000000, 9600000, 60⟩,
            ⟨10000000, 13600000, 60⟩, ⟨14000000, 17600000, 60⟩, ⟨18000000, 21600000, 60⟩,
            ⟨22000000, 25600000, 60⟩]).take 5).map (fun s => mkSuggestion s 30) ∧
    (findSuggestedSlots
        [⟨0, 3600000, 60⟩, ⟨4000000, 5200000, 20⟩, ⟨6000000, 9600000, 60⟩,
          ⟨10000000, 13600000, 60⟩, ⟨14000000, 17600000, 60⟩, ⟨18000000, 21600000, 60⟩,
          ⟨22000000, 25600000, 60⟩] 30).length ≤ 5 ∧
    ∀ s ∈ findSuggestedSlots
        [⟨0, 3600000, 60⟩, ⟨4000000, 5200000, 20⟩, ⟨6000000, 9600000, 60⟩,
          ⟨10000000, 13600000, 60⟩, ⟨14000000, 17600000, 60⟩, ⟨18000000, 21600000, 60⟩,
          ⟨22000000, 25600000, 60⟩] 30,
      ∃ slot ∈ [(⟨0, 3600000, 60⟩ : FreeSlot), ⟨4000000, 5200000, 20⟩, ⟨6000000, 9600000, 60⟩,
          ⟨10000000, 13600000, 60⟩, ⟨14000000, 17600000, 60⟩, ⟨18000000, 21600000, 60⟩,
          ⟨22000000, 25600000, 60⟩], slot.durationMinutes ≥ 30 ∧ s = mkSuggestion slot 30) :=
  ⟨by decide, C9_findSuggestedSlots _ 30 (by decide)⟩

/-! ## C1 -/

lemma listAllEvents_filter_ok (results : List (Except String (List Event))) :
    (listAllEvents (results.filter isOkB)).events = (listAllEvents results).events := by
  simp only [listAllEvents]
  congr 1
  induction results with
  | nil => rfl
  | cons r rest ih =>
    cases r with
    | ok es => simpa [isOkB, List.filter, List.filterMap] using ih
    | error m => simpa [isOkB, List.filter, List.filterMap] using ih

/-- C1 counterexample: with one rejected provider and one fulfilled provider
holding a conflicting busy event, `checkConflicts` fulfills with a result
computed from the fulfilled provider's events alone — the provider failure is
recorded by `listAllEvents` but the operation does not fail. -/
theorem C1_counterexample :
    checkConflictsOp ⟨0, 3600000, none, none⟩
        [Except.error "provider unavailable",
          Except.ok [⟨"e1", "google", "cal", "Standup", 0, 1800000, none, false, none, .busy⟩]] =
      Except.ok (checkConflictsPure ⟨0, 3600000, none, none⟩
        [⟨"e1", "google", "cal", "Standup", 0, 1800000, none, false, none, .busy⟩]) ∧
    (listAllEvents
        [Except.error "provider unavailable",
          Except.ok [⟨"e1", "google", "cal", "Standup", 0, 1800000, none, false, none,
            .busy⟩]]).errors = ["provider unavailable"] := by
  constructor
  · rfl
  · rfl

/-- C1 amended: a provider listing failure never fails `checkConflicts`,
`findMatchingEvents` or `compareCalendars`: `listAllEvents` captures the
per-provider errors (one record per rejection), the three operations read only
its `events` field and always fulfill, and their results are computed from the
fulfilled providers' events alone. -/
theorem C1_provider_failure_ignored (params : ConflictParams)
    (results srcResults tgtResults : List (Except String (List Event)))
    (mc : MatchConfidence) :
    checkConflictsOp params results =
      Except.ok (checkConflictsPure params (listAllEvents results).events) ∧
    checkConflictsOp params results = checkConflictsOp params (results.filter isOkB) ∧
    findMatchingEventsOp mc srcResults tgtResults =
      Except.ok (findMatchingEventsCore (listAllEvents srcResults).events
        (listAllEvents tgtResults).events mc) ∧
    compareCalendarsOp srcResults tgtResults =
      compareCalendarsOp (srcResults.filter isOkB) (tgtResults.filter isOkB) ∧
    (listAllEvents results).errors =
      results.filterMap (fun r => match r with | .ok _ => none | .error m => some m) := by
  refine ⟨rfl, ?_, rfl, ?_, rfl⟩
  · simp only [checkConflictsOp, listAllEvents_filter_ok]
  · simp only [compareCalendarsOp, listAllEvents_filter_ok]

/-! ## C2 -/

lemma filterMap_err_length (results : List (Except String CalFreeBusy)) :
    (results.filterMap fun r => match r with | .ok _ => none | .error m => some m).length =
      (results.filter fun r => !(isOkFB r)).length := by
  induction results with
  | nil => rfl
  | cons r rest ih =>
    cases r with
    | ok c => simpa [isOkFB, List.filter, List.filterMap] using ih
    | error m => simpa [isOkFB, List.filter, List.filterMap] using ih

/-- C2: when some providers' free/busy calls fail and at least one succeeds,
the aggregation still fulfills; each failing provider contributes exactly one
entry to the `errors` field (set, i.e. non-`none` — the response's only
partiality marker), and the unified busy set is the merge of the fulfilled
providers' slots. -/
theorem C2_partial_success (whFilter : List FreeSlot → List FreeSlot)
    (params : FreeBusyParams) (results : List (Except String CalFreeBusy))
    (hfail : ∃ r ∈ results, isOkFB r = false) (hok : ∃ r ∈ results, isOkFB r = true) :
    getAggregatedFreeBusyOp whFilter params results =
      Except.ok (getAggregatedFreeBusy whFilter params results) ∧
    (getAggregatedFreeBusy whFilter params results).errors =
      some (results.filterMap fun r => match r with | .ok _ => none | .error m => some m) ∧
    (results.filterMap fun r => match r with | .ok _ => none | .error m => some m).length =
      (results.filter fun r => !(isOkFB r)).length ∧
    (getAggregatedFreeBusy whFilter params results).unifiedBusy =
      mergeBusySlots
        (((results.filterMap fun r => match r with | .ok c => some c | .error _ => none).map
          fun c => c.busy).flatten) ∧
    (getAggregatedFreeBusy whFilter params results).errors ≠ none := by
  have hne : ¬ results.isEmpty := by
    rcases hok with ⟨r, hr, _⟩
    cases results with
    | nil => cases hr
    | cons a l => simp [List.isEmpty]
  have herr :
      (results.filterMap fun r => match r with | .ok _ => none | .error m => some m) ≠ [] := by
    rcases hfail with ⟨r, hr, hfb⟩
    cases r with
    | ok c => simp [isOkFB] at hfb
    | error m =>
      intro hnil
      have : (m : String) ∈
          (results.filterMap fun r => match r with | .ok _ => none | .error m => some m) := by
        refine List.mem_filterMap.mpr ⟨.error m, hr, rfl⟩
      rw [hnil] at this
      cases this
  refine ⟨rfl, ?_, filterMap_err_length results, ?_, ?_⟩
  · simp only [getAggregatedFreeBusy, if_neg hne, if_pos herr]
  · simp only [getAggregatedFreeBusy, if_neg hne]
  · simp only [getAggregatedFreeBusy, if_neg hne, if_pos herr]
    exact Option.some_ne_none _

/-- C2 witness: one rejected and one fulfilled provider at concrete inputs. -/
theorem C2_partial_success_witness :
    (∃ r ∈ [Except.error "upstream timeout",
        Except.ok (⟨"cal1", [⟨0, 1800000, .busy⟩]⟩ : CalFreeBusy)], isOkFB r = false) ∧
    (∃ r ∈ [Except.error "upstream timeout",
        Except.ok (⟨"cal1", [⟨0, 1800000, .busy⟩]⟩ : CalFreeBusy)], isOkFB r = true) ∧
    (getAggregatedFreeBusyOp id ⟨0, 3600000, none, false⟩
        [Except.error "upstream timeout", Except.ok ⟨"cal1", [⟨0, 1800000, .busy⟩]⟩] =
      Except.ok (getAggregatedFreeBusy id ⟨0, 3600000, none, false⟩
        [Except.error "upstream timeout", Except.ok ⟨"cal1", [⟨0, 1800000, .busy⟩]⟩]) ∧
    (getAggregatedFreeBusy id ⟨0, 3600000, none, false⟩
        [Except.error "upstream timeout", Except.ok ⟨"cal1", [⟨0, 1800000, .busy⟩]⟩]).errors =
      some ([Except.error "upstream timeout",
          Except.ok (⟨"cal1", [⟨0, 1800000, .busy⟩]⟩ : CalFreeBusy)].filterMap
        fun r => match r with | .ok _ => none | .error m => some m) ∧
    ([Except.error "upstream timeout",
        Except.ok (⟨"cal1", [⟨0, 1800000, .busy⟩]⟩ : CalFreeBusy)].filterMap
      fun r => match r with | .ok _ => none | .error m => some m).length =
      ([Except.error "upstream timeout",
          Except.ok (⟨"cal1", [⟨0, 1800000, .busy⟩]⟩ : CalFreeBusy)].filter
        fun r => !(isOkFB r)).length ∧
    (getAggregatedFreeBusy id ⟨0, 3600000, none, false⟩
        [Except.error "upstream timeout", Except.ok ⟨"cal1", [⟨0, 1800000, .busy⟩]⟩]).unifiedBusy =
      mergeBusySlots
        ((([Except.error "upstream timeout",
            Except.ok (⟨"cal1", [⟨0, 1800000, .busy⟩]⟩ : CalFreeBusy)].filterMap
          fun r => match r with | .ok c => some c | .error _ => none).map
          fun c => c.busy).flatten) ∧
    (getAggregatedFreeBusy id ⟨0, 3600000, none, false⟩
        [Except.error "upstream timeout", Except.ok ⟨"cal1", [⟨0, 1800000, .busy⟩]⟩]).errors ≠
      none) :=
  ⟨by decide, by decide,
    C2_partial_success id ⟨0, 3600000, none, false⟩
      [Except.error "upstream timeout", Except.ok ⟨"cal1", [⟨0, 1800000, .busy⟩]⟩]
      (by decide) (by decide)⟩

/-! ## C7 -/

/-- A candidate window start `x` is feasible when the window of the proposal's
duration starting at `x` overlaps no busy interval. -/
def slotFeasible (busy : List (ℤ × ℤ)) (d x : ℤ) : Prop :=
  ∀ b ∈ busy, ¬(x < b.2 ∧ x + d > b.1)

instance (busy : List (ℤ × ℤ)) (d x : ℤ) : Decidable (slotFeasible busy d x) := by
  unfold slotFeasible; infer_instance

lemma faMeasure_mono (busy : List (ℤ × ℤ)) {c c' : ℤ} (h : c ≤ c') :
    faMeasure busy c' ≤ faMeasure busy c := by
  induction busy with
  | nil => exact le_refl _
  | cons x xs ih =>
    simp only [faMeasure, List.filter_cons] at *
    by_cases h1 : c' < x.2
    · have h2 : c < x.2 := lt_of_le_of_lt h h1
      simp [h1, h2]
      omega
    · by_cases h2 : c < x.2 <;> simp [h1, h2] <;> omega

lemma faMeasure_lt (busy : List (ℤ × ℤ)) {c : ℤ} {b : ℤ × ℤ} (hb : b ∈ busy)
    (hcb : c < b.2) : faMeasure busy b.2 < faMeasure busy c := by
  induction busy with
  | nil => cases hb
  | cons x xs ih =>
    rcases List.mem_cons.mp hb with hx | hx
    · subst hx
      have h1 : ¬ b.2 < b.2 := lt_irrefl _
      have hmono := faMeasure_mono xs (le_of_lt hcb)
      simp only [faMeasure, List.filter_cons] at *
      simp [h1, hcb]
      omega
    · have ihx := ih hx
      by_cases h1 : b.2 < x.2
      · have h2 : c < x.2 := lt_trans hcb h1
        simp only [faMeasure, List.filter_cons] at *
        simp [h1, h2] at *
        omega
      · by_cases h2 : c < x.2 <;> simp only [faMeasure, List.filter_cons] at * <;>
          simp [h1, h2] at * <;> omega

lemma firstOverlap_none_iff (busy : List (ℤ × ℤ)) (c d : ℤ) :
    firstOverlap busy c (c + d) = none ↔ slotFeasible busy d c := by
  simp only [firstOverlap, List.find?_eq_none, slotFeasible, decide_eq_true_eq,
    gt_iff_lt]

lemma firstOverlap_some (busy : List (ℤ × ℤ)) (c d : ℤ) (b : ℤ × ℤ)
    (h : firstOverlap busy c (c + d) = some b) :
    b ∈ busy ∧ c < b.2 ∧ c + d > b.1 := by
  refine ⟨List.mem_of_find?_eq_some h, ?_⟩
  have := List.find?_some h
  simpa using this

lemma faGo_spec (pStart pEnd searchEnd : ℤ) (busy : List (ℤ × ℤ)) :
    ∀ (fuel : ℕ) (c : ℤ), pStart ≤ c → faMeasure busy c < fuel →
      (∀ s e, faGo pStart pEnd searchEnd busy fuel c = some (s, e) →
        e = s + (pEnd - pStart) ∧ c ≤ s ∧ s < searchEnd ∧
        slotFeasible busy (pEnd - pStart) s ∧
        ∀ x, c ≤ x → x < s → ¬ slotFeasible busy (pEnd - pStart) x) ∧
      (faGo pStart pEnd searchEnd busy fuel c = none →
        ∀ x, c ≤ x → x < searchEnd → ¬ slotFeasible busy (pEnd - pStart) x) := by
  intro fuel
  induction fuel with
  | zero => intro c _ hm; exact absurd hm (by omega)
  | succ fuel ih =>
    intro c hpc hm
    by_cases hcs : c < searchEnd
    · rcases hfo : firstOverlap busy c (c + (pEnd - pStart)) with _ | b
      · have hfe : slotFeasible busy (pEnd - pStart) c :=
          (firstOverlap_none_iff busy c (pEnd - pStart)).mp hfo
        have heq : faGo pStart pEnd searchEnd busy (fuel + 1) c =
            some (c, c + (pEnd - pStart)) := by
          simp only [faGo, if_pos hcs, hfo]
        refine ⟨?_, ?_⟩
        · intro s e hs
          rw [heq] at hs
          injection hs with hs'
          injection hs' with h1 h2
          subst h1; subst h2
          exact ⟨rfl, le_refl _, hcs, hfe, fun x h1 h2 => absurd (lt_of_le_of_lt h1 h2)
            (lt_irrefl _)⟩
        · intro hnone
          rw [heq] at hnone
          cases hnone
      · obtain ⟨hb, hcb, hdb⟩ := firstOverlap_some busy c (pEnd - pStart) b hfo
        have hguard : nextCursor pStart pEnd b.2 = b.2 := by
          unfold nextCursor
          rw [if_neg (by omega)]
        have heq : faGo pStart pEnd searchEnd busy (fuel + 1) c =
            faGo pStart pEnd searchEnd busy fuel b.2 := by
          simp only [faGo, if_pos hcs, hfo, hguard]
        have hm' : faMeasure busy b.2 < fuel := by
          have := faMeasure_lt busy hb hcb
          omega
        have ihb := ih b.2 (by omega) hm'
        have hblock : ∀ x, c ≤ x → x < b.2 → ¬ slotFeasible busy (pEnd - pStart) x := by
          intro x hx1 hx2 hfeas
          exact hfeas b hb ⟨hx2, by omega⟩
        refine ⟨?_, ?_⟩
        · intro s e hs
          rw [heq] at hs
          obtain ⟨h1, h2, h3, h4, h5⟩ := ihb.1 s e hs
          refine ⟨h1, by omega, h3, h4, ?_⟩
          intro x hx1 hx2
          by_cases hxb : x < b.2
          · exact hblock x hx1 hxb
          · exact h5 x (by omega) hx2
        · intro hnone x hx1 hx2
          rw [heq] at hnone
          by_cases hxb : x < b.2
          · exact hblock x hx1 hxb
          · exact ihb.2 hnone x (by omega) hx2
    · have heq : faGo pStart pEnd searchEnd busy (fuel + 1) c = none := by
        simp only [faGo, if_neg hcs]
      refine ⟨?_, ?_⟩
      · intro s e hs
        rw [heq] at hs
        cases hs
      · intro _ x hx1 hx2 _
        exact hcs (by omega)

lemma faGo_fuel_irrel (pStart pEnd searchEnd : ℤ) (busy : List (ℤ × ℤ)) :
    ∀ (f1 : ℕ) (f2 : ℕ) (c : ℤ), pStart ≤ c → faMeasure busy c < f1 →
      faMeasure busy c < f2 →
      faGo pStart pEnd searchEnd busy f1 c = faGo pStart pEnd searchEnd busy f2 c := by
  intro f1
  induction f1 with
  | zero => intro f2 c _ hm _; exact absurd hm (by omega)
  | succ f1 ih =>
    intro f2 c hpc hm1 hm2
    cases f2 with
    | zero => exact absurd hm2 (by omega)
    | succ f2 =>
      by_cases hcs : c < searchEnd
      · rcases hfo : firstOverlap busy c (c + (pEnd - pStart)) with _ | b
        · simp only [faGo, if_pos hcs, hfo]
        · obtain ⟨hb, hcb, _⟩ := firstOverlap_some busy c (pEnd - pStart) b hfo
          have hguard : nextCursor pStart pEnd b.2 = b.2 := by
            unfold nextCursor
            rw [if_neg (by omega)]
          have hlt := faMeasure_lt busy hb hcb
          simp only [faGo, if_pos hcs, hfo, hguard]
          exact ih f2 b.2 (by omega) (by omega) (by omega)
      · simp only [faGo, if_neg hcs]

/-- C7: `findAlternativeSlot` terminates — any fuel above the busy-interval
count yields its result — and returns either the first feasible window of the
proposal's duration at or after the proposed start within the 7-day horizon
(every earlier candidate start overlaps some busy interval), or `none`, in
which case no feasible start exists within the horizon; the non-progress
guard forces a cursor that fails to pass the original proposed start to the
proposed end. -/
theorem C7_findAlternativeSlot (pStart pEnd : ℤ) (events : List Event) :
    (∀ fuel, (busyOf events).length < fuel →
      faGo pStart pEnd (searchHorizon pStart) (busyOf events) fuel pStart =
        findAlternativeSlot pStart pEnd events) ∧
    (∀ s e, findAlternativeSlot pStart pEnd events = some (s, e) →
      e = s + (pEnd - pStart) ∧ pStart ≤ s ∧ s < searchHorizon pStart ∧
      slotFeasible (busyOf events) (pEnd - pStart) s ∧
      ∀ x, pStart ≤ x → x < s → ¬ slotFeasible (busyOf events) (pEnd - pStart) x) ∧
    (findAlternativeSlot pStart pEnd events = none →
      ∀ x, pStart ≤ x → x < searchHorizon pStart →
        ¬ slotFeasible (busyOf events) (pEnd - pStart) x) ∧
    (∀ c, c ≤ pStart → nextCursor pStart pEnd c = pEnd) := by
  have hmeas : faMeasure (busyOf events) pStart ≤ (busyOf events).length :=
    List.length_filter_le _ _
  have hspec := faGo_spec pStart pEnd (searchHorizon pStart) (busyOf events)
    ((busyOf events).length + 1) pStart (le_refl _) (by omega)
  refine ⟨?_, hspec.1, hspec.2, ?_⟩
  · intro fuel hfuel
    exact faGo_fuel_irrel pStart pEnd (searchHorizon pStart) (busyOf events)
      fuel ((busyOf events).length + 1) pStart (le_refl _) (by omega) (by omega)
  · intro c hc
    unfold nextCursor
    rw [if_pos hc]

/-- C7 witness: one busy event at the proposed time; the returned window and
its properties at concrete inputs, via the C7 theorem. -/
theorem C7_findAlternativeSlot_witness :
    (∀ fuel, (busyOf [⟨"e1", "google", "cal", "Standup", 0, 1800000, none, false, none,
        .busy⟩]).length < fuel →
      faGo 0 3600000 (searchHorizon 0)
          (busyOf [⟨"e1", "google", "cal", "Standup", 0, 1800000, none, false, none, .busy⟩])
          fuel 0 =
        findAlternativeSlot 0 3600000
          [⟨"e1", "google", "cal", "Standup", 0, 1800000, none, false, none, .busy⟩]) ∧
    (∀ s e, findAlternativeSlot 0 3600000
        [⟨"e1", "google", "cal", "Standup", 0, 1800000, none, false, none, .busy⟩] =
        some (s, e) →
      e = s + (3600000 - 0) ∧ 0 ≤ s ∧ s < searchHorizon 0 ∧
      slotFeasible (busyOf [⟨"e1", "google", "cal", "Standup", 0, 1800000, none, false, none,
        .busy⟩]) (3600000 - 0) s ∧
      ∀ x, 0 ≤ x → x < s →
        ¬ slotFeasible (busyOf [⟨"e1", "google", "cal", "Standup", 0, 1800000, none, false,
          none, .busy⟩]) (3600000 - 0) x) ∧
    (findAlternativeSlot 0 3600000
        [⟨"e1", "google", "cal", "Standup", 0, 1800000, none, false, none, .busy⟩] = none →
      ∀ x, 0 ≤ x → x < searchHorizon 0 →
        ¬ slotFeasible (busyOf [⟨"e1", "google", "cal", "Standup", 0, 1800000, none, false,
          none, .busy⟩]) (3600000 - 0) x) ∧
    (∀ c, c ≤ 0 → nextCursor 0 3600000 c = 3600000) :=
  C7_findAlternativeSlot 0 3600000
    [⟨"e1", "google", "cal", "Standup", 0, 1800000, none, false, none, .busy⟩]

/-! ## C8 and C10 -/

lemma mem_stableInsert (le : α → α → Prop) [DecidableRel le] (x y : α) (l : List α) :
    y ∈ stableInsert le x l ↔ y = x ∨ y ∈ l := by
  induction l with
  | nil => simp [stableInsert]
  | cons z zs ih =>
    by_cases h : le x z
    · simp [stableInsert, h]
    · simp [stableInsert, h, ih]
      tauto

lemma mem_stableSortBy (le : α → α → Prop) [DecidableRel le] (y : α) (l : List α) :
    y ∈ stableSortBy le l ↔ y ∈ l := by
  induction l with
  | nil => simp [stableSortBy]
  | cons z zs ih => simp [stableSortBy, mem_stableInsert, ih]

lemma conflictsOf_filter_free (params : ConflictParams) (events : List Event) :
    conflictsOf params (events.filter fun e => e.showAs ≠ .free) = conflictsOf params events := by
  unfold conflictsOf
  rw [List.filter_filter]
  apply List.filter_congr
  intro a _
  by_cases h : a.showAs = ShowAs.free
  · simp [h]
  · simp [h]

lemma busyOf_filter_free (events : List Event) :
    busyOf (events.filter fun e => e.showAs ≠ .free) = busyOf events := by
  unfold busyOf
  rw [List.filter_filter]
  congr 1
  apply congrArg
  apply List.filter_congr
  intro a _
  by_cases h : a.showAs = ShowAs.free <;> simp [h]

lemma checkConflictsPure_filter_free (params : ConflictParams) (events : List Event) :
    checkConflictsPure params (events.filter fun e => e.showAs ≠ .free) =
      checkConflictsPure params events := by
  unfold checkConflictsPure findAlternativeSlot
  rw [conflictsOf_filter_free, busyOf_filter_free]

lemma findAlternativeSlot_feasible (pStart pEnd : ℤ) (events : List Event) (s e : ℤ)
    (h : findAlternativeSlot pStart pEnd events = some (s, e)) :
    slotFeasible (busyOf events) (pEnd - pStart) s := by
  have hmeas : faMeasure (busyOf events) pStart ≤ (busyOf events).length :=
    List.length_filter_le _ _
  have hspec := faGo_spec pStart pEnd (searchHorizon pStart) (busyOf events)
    ((busyOf events).length + 1) pStart (le_refl _) (by omega)
  unfold findAlternativeSlot at h
  exact (hspec.1 s e h).2.2.2.1

/-- C8: `showAs = 'free'` events are a hard filter for the conflict detector —
the whole check result is unchanged when they are removed up front, no
reported conflict is free, a proposal overlapping only free events has no
conflict, and a non-excluded busy event overlapping the proposal is reported. -/
theorem C8_free_hard_filter (params : ConflictParams) (events : List Event) :
    checkConflictsPure params events =
      checkConflictsPure params (events.filter fun e => e.showAs ≠ .free) ∧
    (∀ c ∈ (checkConflictsPure params events).conflicts, c.showAs ≠ .free) ∧
    ((∀ e ∈ events,
        rangesOverlap params.startTime params.endTime e.startTime e.endTime →
          e.showAs = .free) →
      (checkConflictsPure params events).hasConflict = false) ∧
    (∀ e ∈ events, e.showAs ≠ .free →
      ¬(params.excludeEventId = some e.id ∧
          (params.excludeProvider = none ∨ params.excludeProvider = some e.provider)) →
      rangesOverlap params.startTime params.endTime e.startTime e.endTime →
      (checkConflictsPure params events).hasConflict = true ∧
        e ∈ (checkConflictsPure params events).conflicts) := by
  refine ⟨(checkConflictsPure_filter_free params events).symm, ?_, ?_, ?_⟩
  · intro c hc
    have := (List.mem_filter.mp hc).2
    simp only [decide_eq_true_eq] at this
    exact this.2.1
  · intro hall
    have hnil : conflictsOf params events = [] := by
      unfold conflictsOf
      rw [List.filter_eq_nil_iff]
      intro e he
      simp only [decide_eq_true_eq, not_and]
      intro _ hne hov
      exact absurd (hall e he hov) hne
    simp only [checkConflictsPure, hnil]
    rfl
  · intro e he hne hnex hov
    have hmem : e ∈ conflictsOf params events := by
      refine List.mem_filter.mpr ⟨he, ?_⟩
      simp only [decide_eq_true_eq]
      exact ⟨hnex, hne, hov⟩
    have hpos : 0 < (conflictsOf params events).length :=
      List.length_pos.mpr (List.ne_nil_of_mem hmem)
    exact ⟨by simp [checkConflictsPure, hpos], hmem⟩

/-- C8 witness: a proposal overlapping one free and one busy event, at
concrete inputs, via the C8 theorem. -/
theorem C8_free_hard_filter_witness :
    (checkConflictsPure ⟨0, 3600000, none, none⟩
        [⟨"f1", "google", "cal", "OOO note", 0, 1800000, none, false, none, .free⟩,
          ⟨"b1", "google", "cal", "Standup", 0, 1800000, none, false, none, .busy⟩] =
      checkConflictsPure ⟨0, 3600000, none, none⟩
        ([⟨"f1", "google", "cal", "OOO note", 0, 1800000, none, false, none, .free⟩,
          ⟨"b1", "google", "cal", "Standup", 0, 1800000, none, false, none, .busy⟩].filter
          fun e => e.showAs ≠ .free) ∧
    (∀ c ∈ (checkConflictsPure ⟨0, 3600000, none, none⟩
        [⟨"f1", "google", "cal", "OOO note", 0, 1800000, none, false, none, .free⟩,
          ⟨"b1", "google", "cal", "Standup", 0, 1800000, none, false, none,
            .busy⟩]).conflicts, c.showAs ≠ .free) ∧
    ((∀ e ∈ [(⟨"f1", "google", "cal", "OOO note", 0, 1800000, none, false, none,
          .free⟩ : Event),
        ⟨"b1", "google", "cal", "Standup", 0, 1800000, none, false, none, .busy⟩],
        rangesOverlap 0 3600000 e.startTime e.endTime → e.showAs = .free) →
      (checkConflictsPure ⟨0, 3600000, none, none⟩
        [⟨"f1", "google", "cal", "OOO note", 0, 1800000, none, false, none, .free⟩,
          ⟨"b1", "google", "cal", "Standup", 0, 1800000, none, false, none,
            .busy⟩]).hasConflict = false) ∧
    (∀ e ∈ [(⟨"f1", "google", "cal", "OOO note", 0, 1800000, none, false, none,
          .free⟩ : Event),
        ⟨"b1", "google", "cal", "Standup", 0, 1800000, none, false, none, .busy⟩],
      e.showAs ≠ .free →
      ¬((none : Option String) = some e.id ∧
          ((none : Option String) = none ∨ (none : Option String) = some e.provider)) →
      rangesOverlap 0 3600000 e.startTime e.endTime →
      (checkConflictsPure ⟨0, 3600000, none, none⟩
        [⟨"f1", "google", "cal", "OOO note", 0, 1800000, none, false, none, .free⟩,
          ⟨"b1", "google", "cal", "Standup", 0, 1800000, none, false, none,
            .busy⟩]).hasConflict = true ∧
        e ∈ (checkConflictsPure ⟨0, 3600000, none, none⟩
          [⟨"f1", "google", "cal", "OOO note", 0, 1800000, none, false, none, .free⟩,
            ⟨"b1", "google", "cal", "Standup", 0, 1800000, none, false, none,
              .busy⟩]).conflicts)) :=
  C8_free_hard_filter ⟨0, 3600000, none, none⟩
    [⟨"f1", "google", "cal", "OOO note", 0, 1800000, none, false, none, .free⟩,
      ⟨"b1", "google", "cal", "Standup", 0, 1800000, none, false, none, .busy⟩]

/-- C10: the event matching `excludeEventId` is omitted from the reported
conflicts, but (when not free) its interval still belongs to the busy set of
the alternative-slot search, so a returned suggestion never overlaps it. -/
theorem C10_exclude_only_from_conflicts (params : ConflictParams) (events : List Event)
    (ev : Event) (hmem : ev ∈ events) (hid : params.excludeEventId = some ev.id)
    (hprov : params.excludeProvider = none ∨ params.excludeProvider = some ev.provider) :
    ev ∉ (checkConflictsPure params events).conflicts ∧
    (ev.showAs ≠ .free → (ev.startTime, ev.endTime) ∈ busyOf events) ∧
    (ev.showAs ≠ .free →
      ∀ s e, (checkConflictsPure params events).suggestion = some (s, e) →
        ¬(s < ev.endTime ∧ s + (params.endTime - params.startTime) > ev.startTime)) := by
  have hbusy : ev.showAs ≠ .free → (ev.startTime, ev.endTime) ∈ busyOf events := by
    intro hne
    unfold busyOf
    rw [mem_stableSortBy]
    exact List.mem_map.mpr ⟨ev, List.mem_filter.mpr ⟨hmem, by simp [hne]⟩, rfl⟩
  refine ⟨?_, hbusy, ?_⟩
  · intro hc
    have := (List.mem_filter.mp hc).2
    simp only [decide_eq_true_eq] at this
    exact this.1 ⟨hid, hprov⟩
  · intro hne s e hs
    have hfa : findAlternativeSlot params.startTime params.endTime events = some (s, e) := by
      by_cases hcond : 0 < (conflictsOf params events).length
      · simpa [checkConflictsPure, hcond] using hs
      · simp [checkConflictsPure, hcond] at hs
    have hfe := findAlternativeSlot_feasible params.startTime params.endTime events s e hfa
    exact hfe (ev.startTime, ev.endTime) (hbusy hne)

/-- C10 witness: rescheduling check that excludes the very meeting being
moved; at concrete inputs, via the C10 theorem. -/
theorem C10_exclude_only_from_conflicts_witness :
    ((⟨"m1", "google", "cal", "Weekly sync", 1000000, 2000000, none, false, none,
        .busy⟩ : Event) ∉
      (checkConflictsPure ⟨0, 3600000, some "m1", some "google"⟩
        [⟨"m1", "google", "cal", "Weekly sync", 1000000, 2000000, none, false, none,
          .busy⟩]).conflicts ∧
    ((⟨"m1", "google", "cal", "Weekly sync", 1000000, 2000000, none, false, none,
        .busy⟩ : Event).showAs ≠ .free →
      ((1000000 : ℤ), (2000000 : ℤ)) ∈ busyOf
        [⟨"m1", "google", "cal", "Weekly sync", 1000000, 2000000, none, false, none,
          .busy⟩]) ∧
    ((⟨"m1", "google", "cal", "Weekly sync", 1000000, 2000000, none, false, none,
        .busy⟩ : Event).showAs ≠ .free →
      ∀ s e, (checkConflictsPure ⟨0, 3600000, some "m1", some "google"⟩
          [⟨"m1", "google", "cal", "Weekly sync", 1000000, 2000000, none, false, none,
            .busy⟩]).suggestion = some (s, e) →
        ¬(s < 2000000 ∧ s + (3600000 - 0) > 1000000))) :=
  C10_exclude_only_from_conflicts ⟨0, 3600000, some "m1", some "google"⟩
    [⟨"m1", "google", "cal", "Weekly sync", 1000000, 2000000, none, false, none, .busy⟩]
    ⟨"m1", "google", "cal", "Weekly sync", 1000000, 2000000, none, false, none, .busy⟩
    (List.mem_singleton.mpr rfl) rfl (Or.inr rfl)

/-! ## C4 -/

lemma lev_le_max : ∀ xs ys : List Char, lev xs ys ≤ max xs.length ys.length := by
  intro xs ys
  induction xs, ys using lev.induct with
  | case1 ys => simp [lev]
  | case2 x xs => simp [lev]
  | case3 x xs y ys ih1 ih2 ih3 =>
    have hstep : lev (x :: xs) (y :: ys) ≤ lev xs ys + 1 := by
      have h1 : lev (x :: xs) (y :: ys) ≤ lev xs ys + (if x = y then 0 else 1) := by
        rw [lev]
        exact le_trans (min_le_right _ _) (min_le_right _ _)
      have h2 : (if x = y then 0 else 1) ≤ 1 := by split_ifs <;> omega
      omega
    simp only [List.length_cons]
    omega

lemma fuzzyMatch_bounds (s t : String) : 0 ≤ fuzzyMatch s t ∧ fuzzyMatch s t ≤ 1 := by
  simp only [fuzzyMatch]
  split_ifs with h1 h2 h3 h4 h5
  · norm_num
  · norm_num
  · norm_num
  · norm_num
  · norm_num
  · set s1 := normalizeStr s
    set s2 := normalizeStr t
    have hmax : 0 < max s1.length s2.length := by omega
    have hmaxQ : (0 : ℚ) < (max s1.length s2.length : ℚ) := by exact_mod_cast hmax
    have hle : lev s1 s2 ≤ max s1.length s2.length := lev_le_max s1 s2
    have hleQ : (lev s1 s2 : ℚ) ≤ (max s1.length s2.length : ℚ) := by exact_mod_cast hle
    have hdiv1 : (lev s1 s2 : ℚ) / (max s1.length s2.length : ℚ) ≤ 1 :=
      (div_le_one hmaxQ).mpr hleQ
    have hdiv0 : (0 : ℚ) ≤ (lev s1 s2 : ℚ) / (max s1.length s2.length : ℚ) :=
      div_nonneg (by positivity) (le_of_lt hmaxQ)
    constructor <;> linarith

lemma score_aux (pL pI : Prop) [Decidable pL] [Decidable pI]
    (sub st en loc ad ic : ℚ)
    (hsub0 : 0 ≤ sub) (hsub1 : sub ≤ 1) (hst0 : 0 ≤ st) (hst1 : st ≤ 1)
    (hen0 : 0 ≤ en) (hen1 : en ≤ 1) (hloc0 : 0 ≤ loc) (hloc1 : loc ≤ 1)
    (had0 : 0 ≤ ad) (had1 : ad ≤ 1) (hic0 : 0 ≤ ic) (hic1 : ic ≤ 1) :
    0 ≤ (if (30 + 25 + 20 + (if pL then (10 : ℚ) else 0) + 10 +
            (if pI then (5 : ℚ) else 0)) > 0 then
          (30 * sub + 25 * st + 20 * en + (if pL then 10 * loc else 0) + 10 * ad +
              (if pI then 5 * ic else 0)) /
            (30 + 25 + 20 + (if pL then (10 : ℚ) else 0) + 10 + (if pI then (5 : ℚ) else 0))
        else 0) ∧
    (if (30 + 25 + 20 + (if pL then (10 : ℚ) else 0) + 10 +
            (if pI then (5 : ℚ) else 0)) > 0 then
          (30 * sub + 25 * st + 20 * en + (if pL then 10 * loc else 0) + 10 * ad +
              (if pI then 5 * ic else 0)) /
            (30 + 25 + 20 + (if pL then (10 : ℚ) else 0) + 10 + (if pI then (5 : ℚ) else 0))
        else 0) ≤ 1 := by
  by_cases hpL : pL <;> by_cases hpI : pI <;>
    simp only [hpL, hpI, if_true, if_false] <;> norm_num <;>
    constructor <;>
    first
      | exact div_nonneg (by linarith) (by norm_num)
      | exact (div_le_one (by norm_num)).mpr (by linarith)

/-- C4: every match score lies in `[0, 1]` (each factor score lies in `[0, 1]`
and the weighted sum is divided by the accumulated weight), and the derived
confidence buckets are exactly `high` iff score ≥ 0.8, `medium` iff
0.5 ≤ score < 0.8, `low` iff score < 0.5. -/
theorem C4_calculateMatch_score (source target : Event) :
    (0 ≤ (calculateMatch source target).score ∧ (calculateMatch source target).score ≤ 1) ∧
    ((calculateMatch source target).confidence = .high ↔
      8/10 ≤ (calculateMatch source target).score) ∧
    ((calculateMatch source target).confidence = .medium ↔
      5/10 ≤ (calculateMatch source target).score ∧
        (calculateMatch source target).score < 8/10) ∧
    ((calculateMatch source target).confidence = .low ↔
      (calculateMatch source target).score < 5/10) ∧
    (∀ a b : String, 0 ≤ fuzzyMatch a b ∧ fuzzyMatch a b ≤ 1) := by
  obtain ⟨hs0, hs1⟩ := fuzzyMatch_bounds source.subject target.subject
  obtain ⟨hl0, hl1⟩ := fuzzyMatch_bounds (source.location.getD "") (target.location.getD "")
  have hst : 0 ≤ (if |source.startTime - target.startTime| ≤ 60000 then (1 : ℚ)
        else if |source.startTime - target.startTime| ≤ 300000 then 1/2 else 0) ∧
      (if |source.startTime - target.startTime| ≤ 60000 then (1 : ℚ)
        else if |source.startTime - target.startTime| ≤ 300000 then 1/2 else 0) ≤ 1 := by
    split_ifs <;> norm_num
  have hen : 0 ≤ (if |source.endTime - target.endTime| ≤ 60000 then (1 : ℚ)
        else if |source.endTime - target.endTime| ≤ 300000 then 1/2 else 0) ∧
      (if |source.endTime - target.endTime| ≤ 60000 then (1 : ℚ)
        else if |source.endTime - target.endTime| ≤ 300000 then 1/2 else 0) ≤ 1 := by
    split_ifs <;> norm_num
  have had : 0 ≤ (if source.isAllDay = target.isAllDay then (1 : ℚ) else 0) ∧
      (if source.isAllDay = target.isAllDay then (1 : ℚ) else 0) ≤ 1 := by
    split_ifs <;> norm_num
  have hic : 0 ≤ (if source.iCalUId = target.iCalUId then (1 : ℚ) else 0) ∧
      (if source.iCalUId = target.iCalUId then (1 : ℚ) else 0) ≤ 1 := by
    split_ifs <;> norm_num
  have hscore : 0 ≤ (calculateMatch source target).score ∧
      (calculateMatch source target).score ≤ 1 :=
    score_aux (strTruthy source.location ∨ strTruthy target.location)
      (strTruthy source.iCalUId ∧ strTruthy target.iCalUId)
      (fuzzyMatch source.subject target.subject) _ _
      (fuzzyMatch (source.location.getD "") (target.location.getD "")) _ _
      hs0 hs1 hst.1 hst.2 hen.1 hen.2 hl0 hl1 had.1 had.2 hic.1 hic.2
  have hconf : (calculateMatch source target).confidence =
      (if (calculateMatch source target).score ≥ 8/10 then MatchConfidence.high
        else if (calculateMatch source target).score ≥ 5/10 then .medium else .low) := rfl
  refine ⟨hscore, ?_⟩
  by_cases h8 : (8 : ℚ)/10 ≤ (calculateMatch source target).score
  · have hc : (calculateMatch source target).confidence = .high := by
      rw [hconf]; exact if_pos h8
    refine ⟨iff_of_true hc h8, ?_, ?_, fuzzyMatch_bounds⟩
    · exact iff_of_false (by simp [hc]) (by rintro ⟨-, hlt⟩; linarith)
    · exact iff_of_false (by simp [hc]) (by intro hlt; linarith)
  · by_cases h5 : (5 : ℚ)/10 ≤ (calculateMatch source target).score
    · have hc : (calculateMatch source target).confidence = .medium := by
        rw [hconf, if_neg h8]; exact if_pos h5
      refine ⟨iff_of_false (by simp [hc]) h8, ?_, ?_, fuzzyMatch_bounds⟩
      · exact iff_of_true hc ⟨h5, not_le.mp h8⟩
      · exact iff_of_false (by simp [hc]) (not_lt.mpr h5)
    · have hc : (calculateMatch source target).confidence = .low := by
        rw [hconf, if_neg h8]; exact if_neg h5
      refine ⟨iff_of_false (by simp [hc]) h8, ?_, ?_, fuzzyMatch_bounds⟩
      · exact iff_of_false (by simp [hc]) (by rintro ⟨hge, -⟩; exact h5 hge)
      · exact iff_of_true hc (not_le.mp h5)

/-! ## C3 -/

lemma pairwise_stableInsert {le : α → α → Prop} [DecidableRel le]
    (htot : ∀ a b, ¬ le a b → le b a) (htrans : ∀ a b c, le a b → le b c → le a c)
    (x : α) (l : List α) (hl : l.Pairwise le) :
    (stableInsert le x l).Pairwise le := by
  induction l with
  | nil => simp [stableInsert]
  | cons y ys ih =>
    rcases List.pairwise_cons.mp hl with ⟨hy, hys⟩
    by_cases h : le x y
    · rw [stableInsert, if_pos h]
      refine List.pairwise_cons.mpr ⟨?_, hl⟩
      intro z hz
      rcases List.mem_cons.mp hz with hz | hz
      · exact hz ▸ h
      · exact htrans x y z h (hy z hz)
    · rw [stableInsert, if_neg h]
      refine List.pairwise_cons.mpr ⟨?_, ih hys⟩
      intro z hz
      rcases (mem_stableInsert le x z ys).mp hz with hz | hz
      · exact hz ▸ htot x y h
      · exact hy z hz

lemma pairwise_stableSortBy {le : α → α → Prop} [DecidableRel le]
    (htot : ∀ a b, ¬ le a b → le b a) (htrans : ∀ a b c, le a b → le b c → le a c)
    (l : List α) : (stableSortBy le l).Pairwise le := by
  induction l with
  | nil => simp [stableSortBy]
  | cons x xs ih => exact pairwise_stableInsert htot htrans x _ ih

lemma chain_sep_forall (a : ℤ × ℤ) (l : List (ℤ × ℤ))
    (h : (a :: l).Chain' fun x y => x.2 < y.1) (hpos : ∀ iv ∈ l, iv.1 < iv.2) :
    ∀ b ∈ l, a.2 < b.1 := by
  induction l generalizing a with
  | nil => intro b hb; cases hb
  | cons x xs ih =>
    rcases List.chain'_cons.mp h with ⟨hax, hxs⟩
    intro b hb
    rcases List.mem_cons.mp hb with hb | hb
    · exact hb ▸ hax
    · have hx : x.1 < x.2 := hpos x (List.mem_cons_self _ _)
      have := ih x hxs (fun iv hiv => hpos iv (List.mem_cons_of_mem _ hiv)) b hb
      omega

lemma mergeIntLoop_spec (rest : List (ℤ × ℤ)) :
    ∀ current : ℤ × ℤ, current.1 < current.2 → (∀ iv ∈ rest, iv.1 < iv.2) →
      rest.Pairwise (fun a b => a.1 ≤ b.1) → (∀ iv ∈ rest, current.1 ≤ iv.1) →
      ∃ e tl, mergeIntLoop current rest = (current.1, e) :: tl ∧ current.2 ≤ e ∧
        ((current.1, e) :: tl).Chain' (fun a b => a.2 < b.1) ∧
        (∀ iv ∈ (current.1, e) :: tl, iv.1 < iv.2) := by
  induction rest with
  | nil =>
    intro current hpos _ _ _
    exact ⟨current.2, [], by simp [mergeIntLoop], le_refl _, by simp, by
      intro iv hiv
      rcases List.mem_singleton.mp hiv with h
      exact h ▸ hpos⟩
  | cons next rest ih =>
    intro current hcur hpos hsorted hge
    have hnextpos : next.1 < next.2 := hpos next (List.mem_cons_self _ _)
    have hnextge : current.1 ≤ next.1 := hge next (List.mem_cons_self _ _)
    rcases List.pairwise_cons.mp hsorted with ⟨hnextle, hrest_sorted⟩
    have hrest_pos : ∀ iv ∈ rest, iv.1 < iv.2 :=
      fun iv hiv => hpos iv (List.mem_cons_of_mem _ hiv)
    by_cases hmerge : ivOverlaps current next ∨ ivAbutsStart current next
    · rw [mergeIntLoop, if_pos hmerge]
      have hcur' : (current.1, if current.2 > next.2 then current.2 else next.2).1 <
          (current.1, if current.2 > next.2 then current.2 else next.2).2 := by
        simp only
        split_ifs <;> omega
      have hge' : ∀ iv ∈ rest,
          (current.1, if current.2 > next.2 then current.2 else next.2).1 ≤ iv.1 :=
        fun iv hiv => hge iv (List.mem_cons_of_mem _ hiv)
      obtain ⟨e, tl, heq, hle, hchain, hall⟩ :=
        ih (current.1, if current.2 > next.2 then current.2 else next.2) hcur' hrest_pos
          hrest_sorted hge'
      refine ⟨e, tl, heq, ?_, hchain, hall⟩
      have : current.2 ≤ (if current.2 > next.2 then current.2 else next.2) := by
        split_ifs <;> omega
      simp only at hle
      omega
    · rw [mergeIntLoop, if_neg hmerge]
      push_neg at hmerge
      rcases hmerge with ⟨hov, hab⟩
      unfold ivOverlaps at hov
      unfold ivAbutsStart at hab
      have hsep : current.2 < next.1 := by
        simp only [not_and, not_lt] at hov
        have h1 : current.1 < next.2 := by omega
        have h2 : current.2 ≤ next.1 := hov h1
        omega
      obtain ⟨e', tl', heq', hle', hchain', hall'⟩ :=
        ih next hnextpos hrest_pos hrest_sorted hnextle
      refine ⟨current.2, mergeIntLoop next rest, ?_, le_refl _, ?_, ?_⟩
      · simp
      · rw [heq']
        exact List.chain'_cons.mpr ⟨by simpa using hsep, heq' ▸ hchain'⟩
      · intro iv hiv
        rcases List.mem_cons.mp hiv with h | h
        · rw [h]
          exact hcur
        · exact hall' iv (heq' ▸ h)

lemma mergeIntervals_spec (B : List (ℤ × ℤ)) (hpos : ∀ iv ∈ B, iv.1 < iv.2) :
    (mergeIntervals B).Chain' (fun a b => a.2 < b.1) ∧
    (∀ iv ∈ mergeIntervals B, iv.1 < iv.2) := by
  unfold mergeIntervals
  have hsorted := @pairwise_stableSortBy (ℤ × ℤ) (fun a b => a.1 ≤ b.1) _
    (fun a b h => by omega) (fun a b c h1 h2 => le_trans h1 h2)
    (B.filter fun i => i.1 ≤ i.2)
  have hallpos : ∀ iv ∈ stableSortBy (fun a b : ℤ × ℤ => a.1 ≤ b.1)
      (B.filter fun i => i.1 ≤ i.2), iv.1 < iv.2 := by
    intro iv hiv
    have := (mem_stableSortBy _ iv _).mp hiv
    exact hpos iv (List.mem_filter.mp this).1
  cases hs : stableSortBy (fun a b : ℤ × ℤ => a.1 ≤ b.1) (B.filter fun i => i.1 ≤ i.2) with
  | nil => simp
  | cons first rest =>
    rw [hs] at hsorted hallpos
    rcases List.pairwise_cons.mp hsorted with ⟨hfirst_le, hrest_sorted⟩
    obtain ⟨e, tl, heq, _, hchain, hall⟩ :=
      mergeIntLoop_spec rest first (hallpos first (List.mem_cons_self _ _))
        (fun iv hiv => hallpos iv (List.mem_cons_of_mem _ hiv)) hrest_sorted hfirst_le
    dsimp only
    rw [heq]
    exact ⟨hchain, hall⟩

lemma gapsLoop_spec (rs re : ℤ) (hrsre : rs < re) :
    ∀ (L : List (ℤ × ℤ)) (c : ℤ),
      L.Chain' (fun a b => a.2 < b.1) → (∀ iv ∈ L, iv.1 < iv.2) →
      rs ≤ c → c ≤ re → (∀ iv ∈ L, rs < iv.2 → c ≤ iv.2) →
      (∀ t : ℤ, c ≤ t → t < re →
        ((∃ g ∈ gapsLoop rs re L c, g.1 ≤ t ∧ t < g.2) ↔
          ¬ ∃ m ∈ L, max m.1 rs ≤ t ∧ t < min m.2 re)) ∧
      (∀ g ∈ gapsLoop rs re L c, c ≤ g.1 ∧ g.2 ≤ re) ∧
      (gapsLoop rs re L c).Chain' (fun a b => a.2 ≤ b.1) := by
  intro L
  induction L with
  | nil =>
    intro c _ _ _ _ _
    refine ⟨?_, ?_, ?_⟩
    · intro t hct htre
      have hcre' : c < re := lt_of_le_of_lt hct htre
      rw [gapsLoop, if_pos hcre']
      simp [hct, htre]
    · intro g hg
      rw [gapsLoop] at hg
      by_cases h : c < re
      · rw [if_pos h] at hg
        rcases List.mem_singleton.mp hg with rfl
        exact ⟨le_refl _, le_refl _⟩
      · rw [if_neg h] at hg
        cases hg
    · rw [gapsLoop]
      split_ifs <;> simp
  | cons iv rest ih =>
    intro c hchain hpos hrsc hcre hinv
    have hivpos : iv.1 < iv.2 := hpos iv (List.mem_cons_self _ _)
    have hrest_pos : ∀ j ∈ rest, j.1 < j.2 :=
      fun j hj => hpos j (List.mem_cons_of_mem _ hj)
    have hrest_chain : rest.Chain' (fun a b => a.2 < b.1) := hchain.tail
    have hafter : ∀ j ∈ rest, iv.2 < j.1 := chain_sep_forall iv rest hchain hrest_pos
    by_cases h1 : iv.2 ≤ rs
    · simp only [gapsLoop, if_pos h1]
      obtain ⟨ihiff, ihb, ihchain⟩ := ih c hrest_chain hrest_pos hrsc hcre
        (fun j hj => hinv j (List.mem_cons_of_mem _ hj))
      refine ⟨?_, ihb, ihchain⟩
      intro t hct htre
      rw [ihiff t hct htre]
      constructor
      · intro hno hex
        rcases hex with ⟨m, hm, hp⟩
        rcases List.mem_cons.mp hm with rfl | hm'
        · omega
        · exact hno ⟨m, hm', hp⟩
      · intro hno hex
        rcases hex with ⟨m, hm, hp⟩
        exact hno ⟨m, List.mem_cons_of_mem _ hm, hp⟩
    · by_cases h2 : iv.1 ≥ re
      · simp only [gapsLoop, if_neg h1, if_pos h2]
        refine ⟨?_, ?_, ?_⟩
        · intro t hct htre
          have hcre' : c < re := lt_of_le_of_lt hct htre
          rw [if_pos hcre']
          refine iff_of_true ⟨(c, re), List.mem_singleton.mpr rfl, hct, htre⟩ ?_
          rintro ⟨m, hm, hp1, hp2⟩
          rcases List.mem_cons.mp hm with rfl | hm'
          · omega
          · have := hafter m hm'
            omega
        · intro g hg
          by_cases h : c < re
          · rw [if_pos h] at hg
            rcases List.mem_singleton.mp hg with rfl
            exact ⟨le_refl _, le_refl _⟩
          · rw [if_neg h] at hg
            cases hg
        · split_ifs <;> simp
      · simp only [gapsLoop, if_neg h1, if_neg h2]
        have hrs_lt_iv2 : rs < iv.2 := by omega
        have hc_le_iv2 : c ≤ iv.2 := hinv iv (List.mem_cons_self _ _) hrs_lt_iv2
        have hiv1_lt_re : iv.1 < re := by omega
        have heSeE : (if iv.1 > rs then iv.1 else rs) < (if iv.2 < re then iv.2 else re) := by
          split_ifs <;> omega
        have hc_le_eE : c ≤ (if iv.2 < re then iv.2 else re) := by
          split_ifs <;> omega
        have hmaxS : max iv.1 rs = (if iv.1 > rs then iv.1 else rs) := by
          split_ifs <;> omega
        have hminE : min iv.2 re = (if iv.2 < re then iv.2 else re) := by
          split_ifs <;> omega
        have heE_le_re : (if iv.2 < re then iv.2 else re) ≤ re := by
          split_ifs <;> omega
        have heE_le_iv2 : (if iv.2 < re then iv.2 else re) ≤ iv.2 := by
          split_ifs <;> omega
        have hrest_far : ∀ j ∈ rest, (if iv.2 < re then iv.2 else re) ≤ j.1 := by
          intro j hj
          have := hafter j hj
          omega
        obtain ⟨ihiff, ihb, ihchain⟩ :=
          ih (if iv.2 < re then iv.2 else re) hrest_chain hrest_pos (by omega) heE_le_re
            (fun j hj _ => by
              have h3 := hafter j hj
              have h4 := hrest_pos j hj
              omega)
        by_cases hc : c < (if iv.1 > rs then iv.1 else rs)
        · rw [if_pos hc]
          refine ⟨?_, ?_, ?_⟩
          · intro t hct htre
            by_cases ht1 : t < (if iv.1 > rs then iv.1 else rs)
            · refine iff_of_true ⟨(c, if iv.1 > rs then iv.1 else rs),
                List.mem_cons_self _ _, hct, ht1⟩ ?_
              rintro ⟨m, hm, hp1, hp2⟩
              rcases List.mem_cons.mp hm with rfl | hm'
              · omega
              · have h3 := hafter m hm'
                omega
            · by_cases ht2 : t < (if iv.2 < re then iv.2 else re)
              · refine iff_of_false ?_ ?_
                · rintro ⟨g, hg, hp1, hp2⟩
                  rcases List.mem_cons.mp hg with rfl | hg'
                  · exact ht1 hp2
                  · have := (ihb g hg').1
                    omega
                · intro hno
                  exact hno ⟨iv, List.mem_cons_self _ _, by omega, by omega⟩
              · have hgap_drop :
                    (∃ g ∈ (c, if iv.1 > rs then iv.1 else rs) ::
                        gapsLoop rs re rest (if iv.2 < re then iv.2 else re),
                      g.1 ≤ t ∧ t < g.2) ↔
                    (∃ g ∈ gapsLoop rs re rest (if iv.2 < re then iv.2 else re),
                      g.1 ≤ t ∧ t < g.2) := by
                  constructor
                  · rintro ⟨g, hg, hp⟩
                    rcases List.mem_cons.mp hg with rfl | hg'
                    · exact absurd hp.2 (by omega)
                    · exact ⟨g, hg', hp⟩
                  · rintro ⟨g, hg, hp⟩
                    exact ⟨g, List.mem_cons_of_mem _ hg, hp⟩
                have hm_drop :
                    (∃ m ∈ iv :: rest, max m.1 rs ≤ t ∧ t < min m.2 re) ↔
                    (∃ m ∈ rest, max m.1 rs ≤ t ∧ t < min m.2 re) := by
                  constructor
                  · rintro ⟨m, hm, hp⟩
                    rcases List.mem_cons.mp hm with rfl | hm'
                    · exact absurd hp.2 (by omega)
                    · exact ⟨m, hm', hp⟩
                  · rintro ⟨m, hm, hp⟩
                    exact ⟨m, List.mem_cons_of_mem _ hm, hp⟩
                rw [hgap_drop, hm_drop]
                exact ihiff t (by omega) htre
          · intro g hg
            rcases List.mem_cons.mp hg with rfl | hg'
            · exact ⟨le_refl _, by omega⟩
            · have := ihb g hg'
              exact ⟨by omega, this.2⟩
          · refine List.chain'_cons'.mpr ⟨?_, ihchain⟩
            intro y hy
            have hy' := List.mem_of_mem_head? hy
            have := (ihb y hy').1
            simp only
            omega
        · rw [if_neg hc]
          refine ⟨?_, ?_, ?_⟩
          · intro t hct htre
            by_cases ht2 : t < (if iv.2 < re then iv.2 else re)
            · refine iff_of_false ?_ ?_
              · rintro ⟨g, hg, hp1, hp2⟩
                have := (ihb g hg).1
                omega
              · intro hno
                exact hno ⟨iv, List.mem_cons_self _ _, by omega, by omega⟩
            · have hm_drop :
                  (∃ m ∈ iv :: rest, max m.1 rs ≤ t ∧ t < min m.2 re) ↔
                  (∃ m ∈ rest, max m.1 rs ≤ t ∧ t < min m.2 re) := by
                constructor
                · rintro ⟨m, hm, hp⟩
                  rcases List.mem_cons.mp hm with rfl | hm'
                  · exact absurd hp.2 (by omega)
                  · exact ⟨m, hm', hp⟩
                · rintro ⟨m, hm, hp⟩
                  exact ⟨m, List.mem_cons_of_mem _ hm, hp⟩
              rw [hm_drop]
              exact ihiff t (by omega) htre
          · intro g hg
            have := ihb g hg
            exact ⟨by omega, this.2⟩
          · exact ihchain

/-- C3 counterexample: with the zero-length busy interval `(5,5)` listed after
`(5,8)`, the merge loop leaves both (they neither overlap nor abut in Luxon's
strict sense), the gap walk's cursor moves backward to 5 after passing 8, and
the point 6 of the range `[0,10)` is covered by both the gap `(5,10)` and the
clipped merged interval `(5,8)` — the claimed complementary partition fails. -/
theorem C3_counterexample :
    (0 : ℤ) < 10 ∧ ((5 : ℤ), (5 : ℤ)) ∈ [((5 : ℤ), (8 : ℤ)), (5, 5)] ∧
    (∃ g ∈ findGaps [((5 : ℤ), 8), (5, 5)] 0 10, g.1 ≤ 6 ∧ (6 : ℤ) < g.2) ∧
    (∃ m ∈ mergeIntervals [((5 : ℤ), 8), (5, 5)], max m.1 0 ≤ 6 ∧ (6 : ℤ) < min m.2 10) ∧
    ¬ ((∃ g ∈ findGaps [((5 : ℤ), 8), (5, 5)] 0 10, g.1 ≤ 6 ∧ (6 : ℤ) < g.2) ↔
        ¬ ∃ m ∈ mergeIntervals [((5 : ℤ), 8), (5, 5)],
          max m.1 0 ≤ 6 ∧ (6 : ℤ) < min m.2 10) := by
  decide

/-- C3 (amended with positive-length intervals): for every range with
`rangeStart < rangeEnd` and every busy list whose intervals all have positive
length, the gaps of `findGaps` and the merged intervals clipped to the range
complementarily partition the range: each point of the range lies in a gap
exactly when it lies in no clipped merged interval, gaps stay inside the
range and are mutually disjoint, merged intervals are strictly separated,
and an empty busy list yields the single whole-range gap. -/
theorem C3_gap_busy_partition (B : List (ℤ × ℤ)) (rs re : ℤ) (hrange : rs < re)
    (hpos : ∀ iv ∈ B, iv.1 < iv.2) :
    (∀ t : ℤ, rs ≤ t → t < re →
      ((∃ g ∈ findGaps B rs re, g.1 ≤ t ∧ t < g.2) ↔
        ¬ ∃ m ∈ mergeIntervals B, max m.1 rs ≤ t ∧ t < min m.2 re)) ∧
    (∀ g ∈ findGaps B rs re, rs ≤ g.1 ∧ g.2 ≤ re) ∧
    (findGaps B rs re).Chain' (fun a b => a.2 ≤ b.1) ∧
    (mergeIntervals B).Chain' (fun a b => a.2 < b.1) ∧
    findGaps ([] : List (ℤ × ℤ)) rs re = [(rs, re)] := by
  obtain ⟨hchain, hmpos⟩ := mergeIntervals_spec B hpos
  obtain ⟨hiff, hb, hgchain⟩ := gapsLoop_spec rs re hrange (mergeIntervals B) rs hchain hmpos
    (le_refl _) (le_of_lt hrange) (fun iv _ h => le_of_lt h)
  refine ⟨hiff, hb, hgchain, hchain, ?_⟩
  have hempty : mergeIntervals ([] : List (ℤ × ℤ)) = [] := rfl
  rw [findGaps, hempty, gapsLoop, if_pos hrange]

/-- C3 witness: one positive busy interval inside the range, via the C3
theorem. -/
theorem C3_gap_busy_partition_witness :
    (0 : ℤ) < 10 ∧ (∀ iv ∈ [((2 : ℤ), (4 : ℤ))], iv.1 < iv.2) ∧
    ((∀ t : ℤ, 0 ≤ t → t < 10 →
      ((∃ g ∈ findGaps [((2 : ℤ), 4)] 0 10, g.1 ≤ t ∧ t < g.2) ↔
        ¬ ∃ m ∈ mergeIntervals [((2 : ℤ), 4)], max m.1 0 ≤ t ∧ t < min m.2 10)) ∧
    (∀ g ∈ findGaps [((2 : ℤ), 4)] 0 10, 0 ≤ g.1 ∧ g.2 ≤ 10) ∧
    (findGaps [((2 : ℤ), 4)] 0 10).Chain' (fun a b => a.2 ≤ b.1) ∧
    (mergeIntervals [((2 : ℤ), 4)]).Chain' (fun a b => a.2 < b.1) ∧
    findGaps ([] : List (ℤ × ℤ)) 0 10 = [(0, 10)]) :=
  ⟨by decide, by decide, C3_gap_busy_partition [((2 : ℤ), 4)] 0 10 (by decide) (by decide)⟩

/-! ## C6 -/

/-- Combination of a running best with the best of the remaining candidates:
the later candidate wins only on a strictly higher score. -/
def combineBest : Option EventMatch → Option EventMatch → Option EventMatch
  | none, r => r
  | some b, none => some b
  | some b, some m => if m.score > b.score then some m else some b

lemma combineBest_none (r : Option EventMatch) : combineBest none r = r := rfl

lemma combineBest_some_none (b : EventMatch) : combineBest (some b) none = some b := rfl

lemma combineBest_some_some (b m : EventMatch) :
    combineBest (some b) (some m) = if m.score > b.score then some m else some b := rfl

lemma bestUnmatchedSpec_cons (src t : Event) (ts : List Event) (claimed : List String) :
    bestUnmatchedSpec src (t :: ts) claimed =
      if claimed.contains t.id then bestUnmatchedSpec src ts claimed
      else if (calculateMatch src t).score ≥ 5/10 then
        match bestUnmatchedSpec src ts claimed with
        | none => some (calculateMatch src t)
        | some y => if y.score > (calculateMatch src t).score then some y
            else some (calculateMatch src t)
      else bestUnmatchedSpec src ts claimed := by
  by_cases h1 : claimed.contains t.id
  · rw [if_pos h1]
    unfold bestUnmatchedSpec
    rw [List.filter_cons_of_neg (by simpa using h1)]
  · rw [if_neg h1]
    unfold bestUnmatchedSpec
    rw [List.filter_cons_of_pos (by simpa using h1), List.map_cons]
    by_cases h2 : (calculateMatch src t).score ≥ 5/10
    · rw [if_pos h2, List.filter_cons_of_pos (by simpa using h2), firstMaxByScore]
    · rw [if_neg h2, List.filter_cons_of_neg (by simpa using h2)]

lemma innerBest_eq (src : Event) (claimed : List String) :
    ∀ (ts : List Event) (best : Option EventMatch),
      innerBest src claimed ts best = combineBest best (bestUnmatchedSpec src ts claimed) := by
  intro ts
  induction ts with
  | nil =>
    intro best
    cases best <;> rfl
  | cons t ts ih =>
    intro best
    have e1 : innerBest src claimed (t :: ts) best =
        if claimed.contains t.id then innerBest src claimed ts best
        else if (calculateMatch src t).score ≥ 5/10 ∧ beats (calculateMatch src t) best then
          innerBest src claimed ts (some (calculateMatch src t))
        else innerBest src claimed ts best := rfl
    rw [e1, bestUnmatchedSpec_cons]
    by_cases h1 : claimed.contains t.id
    · rw [if_pos h1, if_pos h1]
      exact ih best
    · rw [if_neg h1, if_neg h1]
      by_cases h2 : (calculateMatch src t).score ≥ 5/10
      · rw [if_pos h2]
        rcases best with _ | b
        · rw [if_pos (⟨h2, trivial⟩ :
            (calculateMatch src t).score ≥ 5/10 ∧ beats (calculateMatch src t) none)]
          rw [ih (some (calculateMatch src t))]
          rcases hspec : bestUnmatchedSpec src ts claimed with _ | y
          · simp [combineBest]
          · by_cases hy : y.score > (calculateMatch src t).score
            · simp [combineBest, hy]
            · simp [combineBest, hy]
        · by_cases h3 : (calculateMatch src t).score > b.score
          · rw [if_pos (⟨h2, h3⟩ :
              (calculateMatch src t).score ≥ 5/10 ∧ beats (calculateMatch src t) (some b))]
            rw [ih (some (calculateMatch src t))]
            rcases hspec : bestUnmatchedSpec src ts claimed with _ | y
            · simp [combineBest, h3]
            · by_cases hy : y.score > (calculateMatch src t).score
              · simp [combineBest, hy, h3, lt_trans h3 hy]
              · simp [combineBest, hy, h3]
          · rw [if_neg (by
              rintro ⟨-, hb⟩
              exact h3 hb)]
            rw [ih (some b)]
            rcases hspec : bestUnmatchedSpec src ts claimed with _ | y
            · simp [combineBest, h3]
            · by_cases hy : y.score > (calculateMatch src t).score
              · simp [combineBest, hy]
              · have hyb : ¬ y.score > b.score := by
                  push_neg at hy h3 ⊢
                  exact le_trans hy h3
                simp [combineBest, hy, h3, hyb]
      · rw [if_neg h2, if_neg (by
          rintro ⟨hs, -⟩
          exact h2 hs)]
        exact ih best

lemma firstMaxByScore_mem : ∀ (l : List EventMatch) (m : EventMatch),
    firstMaxByScore l = some m → m ∈ l := by
  intro l
  induction l with
  | nil => intro m h; cases h
  | cons x xs ih =>
    intro m h
    rw [firstMaxByScore] at h
    rcases hspec : firstMaxByScore xs with _ | y
    · rw [hspec] at h
      injection h with h'
      exact h' ▸ List.mem_cons_self _ _
    · rw [hspec] at h
      dsimp only at h
      by_cases hy : y.score > x.score
      · rw [if_pos hy] at h
        injection h with h'
        exact h' ▸ List.mem_cons_of_mem _ (ih y hspec)
      · rw [if_neg hy] at h
        injection h with h'
        exact h' ▸ List.mem_cons_self _ _

lemma bestUnmatchedSpec_some (src : Event) (tgts : List Event) (claimed : List String)
    (m : EventMatch) (h : bestUnmatchedSpec src tgts claimed = some m) :
    ∃ t ∈ tgts, claimed.contains t.id = false ∧ m = calculateMatch src t ∧
      5/10 ≤ m.score ∧ m.targetEvent = t ∧ m.sourceEvent = src := by
  unfold bestUnmatchedSpec at h
  have hmem := firstMaxByScore_mem _ m h
  rcases List.mem_filter.mp hmem with ⟨hmem2, hscore⟩
  rcases List.mem_map.mp hmem2 with ⟨t, ht, rfl⟩
  rcases List.mem_filter.mp ht with ⟨ht2, hunclaimed⟩
  refine ⟨t, ht2, by simpa using hunclaimed, rfl, by simpa using hscore, rfl, rfl⟩

lemma compareLoop_spec (tgts : List Event) :
    ∀ (srcs : List Event) (srcIds tgtIds : List String),
      (compareLoop tgts srcs srcIds tgtIds).1 = greedySpecLoop tgts srcs tgtIds ∧
      (∀ x, x ∈ (compareLoop tgts srcs srcIds tgtIds).2.1 ↔
        x ∈ srcIds ∨ ∃ m ∈ (compareLoop tgts srcs srcIds tgtIds).1, x = m.sourceEvent.id) ∧
      (∀ x, x ∈ (compareLoop tgts srcs srcIds tgtIds).2.2 ↔
        x ∈ tgtIds ∨ ∃ m ∈ (compareLoop tgts srcs srcIds tgtIds).1, x = m.targetEvent.id) ∧
      (∀ m ∈ (compareLoop tgts srcs srcIds tgtIds).1,
        m.sourceEvent ∈ srcs ∧ m.targetEvent ∈ tgts ∧ 5/10 ≤ m.score ∧
          tgtIds.contains m.targetEvent.id = false) ∧
      ((compareLoop tgts srcs srcIds tgtIds).1.map (fun m => m.targetEvent.id)).Nodup := by
  intro srcs
  induction srcs with
  | nil =>
    intro srcIds tgtIds
    refine ⟨rfl, ?_, ?_, ?_, ?_⟩ <;> simp [compareLoop, greedySpecLoop]
  | cons s ss ih =>
    intro srcIds tgtIds
    have hinner : innerBest s tgtIds tgts none = bestUnmatchedSpec s tgts tgtIds := by
      rw [innerBest_eq, combineBest_none]
    have e1 : compareLoop tgts (s :: ss) srcIds tgtIds =
        match innerBest s tgtIds tgts none with
        | none => compareLoop tgts ss srcIds tgtIds
        | some m =>
          (m :: (compareLoop tgts ss (s.id :: srcIds) (m.targetEvent.id :: tgtIds)).1,
            (compareLoop tgts ss (s.id :: srcIds) (m.targetEvent.id :: tgtIds)).2) := rfl
    have e2 : greedySpecLoop tgts (s :: ss) tgtIds =
        match bestUnmatchedSpec s tgts tgtIds with
        | none => greedySpecLoop tgts ss tgtIds
        | some m => m :: greedySpecLoop tgts ss (m.targetEvent.id :: tgtIds) := rfl
    rcases hbs : bestUnmatchedSpec s tgts tgtIds with _ | m
    · rw [hinner] at e1
      rw [hbs] at e1 e2
      simp only at e1 e2
      rw [e1, e2]
      obtain ⟨ihA, ihB, ihC, ihD, ihE⟩ := ih srcIds tgtIds
      exact ⟨ihA, ihB, ihC,
        fun m hm => by
          obtain ⟨h1, h2, h3, h4⟩ := ihD m hm
          exact ⟨List.mem_cons_of_mem _ h1, h2, h3, h4⟩, ihE⟩
    · rw [hinner] at e1
      rw [hbs] at e1 e2
      simp only at e1 e2
      rw [e1, e2]
      obtain ⟨ihA, ihB, ihC, ihD, ihE⟩ := ih (s.id :: srcIds) (m.targetEvent.id :: tgtIds)
      obtain ⟨t, htmem, hunclaimed, hmeq, hscore, htgt, hsrc⟩ :=
        bestUnmatchedSpec_some s tgts tgtIds m hbs
      refine ⟨by rw [ihA], ?_, ?_, ?_, ?_⟩
      · intro x
        rw [ihB x]
        constructor
        · rintro (hc | ⟨m', hm', hx⟩)
          · rcases List.mem_cons.mp hc with rfl | hin
            · exact Or.inr ⟨m, List.mem_cons_self _ _, by rw [hsrc]⟩
            · exact Or.inl hin
          · exact Or.inr ⟨m', List.mem_cons_of_mem _ hm', hx⟩
        · rintro (hin | ⟨m', hm', hx⟩)
          · exact Or.inl (List.mem_cons_of_mem _ hin)
          · rcases List.mem_cons.mp hm' with rfl | hm''
            · exact Or.inl (by rw [hx, hsrc]; exact List.mem_cons_self _ _)
            · exact Or.inr ⟨m', hm'', hx⟩
      · intro x
        rw [ihC x]
        constructor
        · rintro (hc | ⟨m', hm', hx⟩)
          · rcases List.mem_cons.mp hc with rfl | hin
            · exact Or.inr ⟨m, List.mem_cons_self _ _, rfl⟩
            · exact Or.inl hin
          · exact Or.inr ⟨m', List.mem_cons_of_mem _ hm', hx⟩
        · rintro (hin | ⟨m', hm', hx⟩)
          · exact Or.inl (List.mem_cons_of_mem _ hin)
          · rcases List.mem_cons.mp hm' with rfl | hm''
            · exact Or.inl (by rw [hx]; exact List.mem_cons_self _ _)
            · exact Or.inr ⟨m', hm'', hx⟩
      · intro m' hm'
        rcases List.mem_cons.mp hm' with rfl | hm''
        · refine ⟨by rw [hsrc]; exact List.mem_cons_self _ _,
            by rw [htgt]; exact htmem, hscore, by rw [htgt]; exact hunclaimed⟩
        · obtain ⟨h1, h2, h3, h4⟩ := ihD m' hm''
          refine ⟨List.mem_cons_of_mem _ h1, h2, h3, ?_⟩
          have h4' : m'.targetEvent.id ∉ (m.targetEvent.id :: tgtIds) := by simpa using h4
          have : m'.targetEvent.id ∉ tgtIds := fun hx => h4' (List.mem_cons_of_mem _ hx)
          simpa using this
      · rw [List.map_cons]
        refine List.nodup_cons.mpr ⟨?_, ihE⟩
        intro hmem
        rcases List.mem_map.mp hmem with ⟨m', hm', heq⟩
        obtain ⟨-, -, -, h4⟩ := ihD m' hm'
        have h4' : m'.targetEvent.id ∉ (m.targetEvent.id :: tgtIds) := by simpa using h4
        exact h4' (by rw [heq]; exact List.mem_cons_self _ _)

/-- C6: `compareCalendars` performs greedy first-come-first-served matching —
its match list equals the spec-level greedy walk (each source event in
original order takes the best-scoring still-unmatched target with score
≥ 0.5), each target id is claimed at most once, every match scores at least
0.5 and pairs an event of each input list, and, given id-distinct inputs, the
events left unmatched are exactly `sourceOnly` / `targetOnly`. -/
theorem C6_compareCalendars_greedy (srcs tgts : List Event)
    (hs : (srcs.map Event.id).Nodup) (ht : (tgts.map Event.id).Nodup) :
    (compareCalendarsCore srcs tgts).matchList = greedySpecLoop tgts srcs [] ∧
    ((compareCalendarsCore srcs tgts).matchList.map fun m => m.targetEvent.id).Nodup ∧
    (∀ m ∈ (compareCalendarsCore srcs tgts).matchList,
      m.sourceEvent ∈ srcs ∧ m.targetEvent ∈ tgts ∧ 5/10 ≤ m.score) ∧
    (∀ e, e ∈ (compareCalendarsCore srcs tgts).sourceOnly ↔
      e ∈ srcs ∧ ∀ m ∈ (compareCalendarsCore srcs tgts).matchList, m.sourceEvent ≠ e) ∧
    (∀ e, e ∈ (compareCalendarsCore srcs tgts).targetOnly ↔
      e ∈ tgts ∧ ∀ m ∈ (compareCalendarsCore srcs tgts).matchList, m.targetEvent ≠ e) := by
  obtain ⟨hA, hB, hC, hD, hE⟩ := compareLoop_spec tgts srcs [] []
  refine ⟨hA, hE, ?_, ?_, ?_⟩
  · intro m hm
    obtain ⟨h1, h2, h3, -⟩ := hD m hm
    exact ⟨h1, h2, h3⟩
  · intro e
    constructor
    · intro he
      rcases List.mem_filter.mp he with ⟨hin, hp⟩
      refine ⟨hin, ?_⟩
      intro m hm heq
      have hnotin : e.id ∉ (compareLoop tgts srcs [] []).2.1 := by simpa using hp
      exact hnotin ((hB e.id).mpr (Or.inr ⟨m, hm, by rw [heq]⟩))
    · rintro ⟨hin, hall⟩
      refine List.mem_filter.mpr ⟨hin, ?_⟩
      suffices h : e.id ∉ (compareLoop tgts srcs [] []).2.1 by simpa using h
      intro hmem
      rcases (hB e.id).mp hmem with h | ⟨m, hm, heq⟩
      · cases h
      · obtain ⟨h1, -, -, -⟩ := hD m hm
        exact hall m hm (List.inj_on_of_nodup_map hs h1 hin heq.symm)
  · intro e
    constructor
    · intro he
      rcases List.mem_filter.mp he with ⟨hin, hp⟩
      refine ⟨hin, ?_⟩
      intro m hm heq
      have hnotin : e.id ∉ (compareLoop tgts srcs [] []).2.2 := by simpa using hp
      exact hnotin ((hC e.id).mpr (Or.inr ⟨m, hm, by rw [heq]⟩))
    · rintro ⟨hin, hall⟩
      refine List.mem_filter.mpr ⟨hin, ?_⟩
      suffices h : e.id ∉ (compareLoop tgts srcs [] []).2.2 by simpa using h
      intro hmem
      rcases (hC e.id).mp hmem with h | ⟨m, hm, heq⟩
      · cases h
      · obtain ⟨-, h2, -, -⟩ := hD m hm
        exact hall m hm (List.inj_on_of_nodup_map ht h2 hin heq.symm)

/-- C6 witness: one source event and one identical target event, at concrete
inputs, via the C6 theorem. -/
theorem C6_compareCalendars_greedy_witness :
    (([(⟨"s1", "google", "cal", "Standup", 0, 60000, none, false, none, .busy⟩ :
        Event)].map Event.id).Nodup) ∧
    (([(⟨"t1", "microsoft", "cal", "Standup", 0, 60000, none, false, none, .busy⟩ :
        Event)].map Event.id).Nodup) ∧
    ((compareCalendarsCore
        [⟨"s1", "google", "cal", "Standup", 0, 60000, none, false, none, .busy⟩]
        [⟨"t1", "microsoft", "cal", "Standup", 0, 60000, none, false, none,
          .busy⟩]).matchList =
      greedySpecLoop
        [⟨"t1", "microsoft", "cal", "Standup", 0, 60000, none, false, none, .busy⟩]
        [⟨"s1", "google", "cal", "Standup", 0, 60000, none, false, none, .busy⟩] [] ∧
    ((compareCalendarsCore
        [⟨"s1", "google", "cal", "Standup", 0, 60000, none, false, none, .busy⟩]
        [⟨"t1", "microsoft", "cal", "Standup", 0, 60000, none, false, none,
          .busy⟩]).matchList.map fun m => m.targetEvent.id).Nodup ∧
    (∀ m ∈ (compareCalendarsCore
        [⟨"s1", "google", "cal", "Standup", 0, 60000, none, false, none, .busy⟩]
        [⟨"t1", "microsoft", "cal", "Standup", 0, 60000, none, false, none,
          .busy⟩]).matchList,
      m.sourceEvent ∈
          [(⟨"s1", "google", "cal", "Standup", 0, 60000, none, false, none, .busy⟩ :
            Event)] ∧
        m.targetEvent ∈
          [(⟨"t1", "microsoft", "cal", "Standup", 0, 60000, none, false, none, .busy⟩ :
            Event)] ∧ 5/10 ≤ m.score) ∧
    (∀ e, e ∈ (compareCalendarsCore
        [⟨"s1", "google", "cal", "Standup", 0, 60000, none, false, none, .busy⟩]
        [⟨"t1", "microsoft", "cal", "Standup", 0, 60000, none, false, none,
          .busy⟩]).sourceOnly ↔
      e ∈ [(⟨"s1", "google", "cal", "Standup", 0, 60000, none, false, none, .busy⟩ :
          Event)] ∧
        ∀ m ∈ (compareCalendarsCore
            [⟨"s1", "google", "cal", "Standup", 0, 60000, none, false, none, .busy⟩]
            [⟨"t1", "microsoft", "cal", "Standup", 0, 60000, none, false, none,
              .busy⟩]).matchList, m.sourceEvent ≠ e) ∧
    (∀ e, e ∈ (compareCalendarsCore
        [⟨"s1", "google", "cal", "Standup", 0, 60000, none, false, none, .busy⟩]
        [⟨"t1", "microsoft", "cal", "Standup", 0, 60000, none, false, none,
          .busy⟩]).targetOnly ↔
      e ∈ [(⟨"t1", "microsoft", "cal", "Standup", 0, 60000, none, false, none, .busy⟩ :
          Event)] ∧
        ∀ m ∈ (compareCalendarsCore
            [⟨"s1", "google", "cal", "Standup", 0, 60000, none, false, none, .busy⟩]
            [⟨"t1", "microsoft", "cal", "Standup", 0, 60000, none, false, none,
              .busy⟩]).matchList, m.targetEvent ≠ e)) :=
  ⟨by decide, by decide,
    C6_compareCalendars_greedy
      [⟨"s1", "google", "cal", "Standup", 0, 60000, none, false, none, .busy⟩]
      [⟨"t1", "microsoft", "cal", "Standup", 0, 60000, none, false, none, .busy⟩]
      (by decide) (by decide)⟩

end CalendarMCP
